import Mathlib

/-!
Verification of the ACO instruction builder (`aco_builder_h.py` template) of
the Mesa AMD compiler backend.  The C++ code generated by the template is
shallowly embedded below: the `Builder` state becomes an explicit state record
(`BState`), instructions are plain records, and emission appends to the state's
instruction list (the builder's default end-of-sequence insertion mode).
Machine arithmetic is modelled on `Nat` with explicit reduction modulo `2^32`.
-/

namespace Aco

/-- The 32-bit modulus: all vector ALU arithmetic is modulo `2^32`. -/
def W : Nat := 4294967296

/-! ## Bit utilities (util/u_math.h, util/bitscan.h) -/

/-- Auxiliary popcount on up to `f` low bits (structural recursion so that it
reduces in the kernel). -/
def popcountAux : Nat → Nat → Nat
  | 0, _ => 0
  | f + 1, n => n % 2 + popcountAux f (n / 2)

/-- util_bitcount: number of set bits of a 32-bit value. -/
def util_bitcount (n : Nat) : Nat := popcountAux 32 n

/-- Auxiliary count-trailing-zeros on up to `f` low bits. -/
def ctzAux : Nat → Nat → Nat
  | 0, _ => 0
  | f + 1, n => if n % 2 = 1 then 0 else ctzAux f (n / 2) + 1

/-- Count of trailing zero bits of a nonzero 32-bit value. -/
def ctz (n : Nat) : Nat := ctzAux 32 n

/-- ffs: find-first-set; returns the 1-based index of the lowest set bit, 0 for 0. -/
def ffs (n : Nat) : Nat := if n = 0 then 0 else ctz n + 1

/-- util_is_power_of_two_or_zero(v): `(v & (v - 1)) == 0`. -/
def util_is_power_of_two_or_zero (n : Nat) : Bool := n &&& (n - 1) == 0

/-- util_is_power_of_two_nonzero(v): `v != 0 && (v & (v - 1)) == 0`. -/
def util_is_power_of_two_nonzero (n : Nat) : Bool :=
  n != 0 && util_is_power_of_two_or_zero n

/-- u_bit_scan(mask): returns the index of the lowest set bit and clears it
(`i = ffs(*mask) - 1; *mask ^= 1u << i`).  Since bit `i` is the lowest set
bit, the xor clears exactly that bit, which equals `n & (n - 1)`; theorem
`u_bit_scan_xor_eq` below proves this equivalence on 32-bit values. -/
def u_bit_scan (n : Nat) : Nat × Nat :=
  let i := ffs n - 1
  (i, n &&& (n - 1))

/-! ### Lemmas about the bit utilities -/

theorem popcountAux_succ (f n : Nat) :
    popcountAux (f + 1) n = n % 2 + popcountAux f (n / 2) := rfl

theorem ctzAux_decomp : ∀ f n, 0 < n → n < 2 ^ f →
    ∃ m, n = 2 ^ ctzAux f n * (2 * m + 1) := by
  intro f
  induction f with
  | zero => intro n hn hlt; omega
  | succ f ih =>
    intro n hn hlt
    by_cases hodd : n % 2 = 1
    · refine ⟨n / 2, ?_⟩
      have hz : ctzAux (f + 1) n = 0 := by simp [ctzAux, hodd]
      rw [hz, pow_zero, one_mul]
      omega
    · have hhalf : 0 < n / 2 := by omega
      have hhalf2 : n / 2 < 2 ^ f := by
        have h2 : 2 ^ (f + 1) = 2 * 2 ^ f := by ring
        omega
      obtain ⟨m, hm⟩ := ih (n / 2) hhalf hhalf2
      refine ⟨m, ?_⟩
      have hz : ctzAux (f + 1) n = ctzAux f (n / 2) + 1 := by simp [ctzAux, hodd]
      rw [hz]
      calc n = 2 * (n / 2) := by omega
      _ = 2 * (2 ^ ctzAux f (n / 2) * (2 * m + 1)) := by conv_lhs => rw [hm]
      _ = 2 ^ (ctzAux f (n / 2) + 1) * (2 * m + 1) := by ring

theorem ctz_decomp (n : Nat) (hn : 0 < n) (hlt : n < W) :
    ∃ m, n = 2 ^ ctz n * (2 * m + 1) := by
  have : n < 2 ^ 32 := hlt
  exact ctzAux_decomp 32 n hn this

theorem two_pow_ctz_le (n : Nat) (hn : 0 < n) (hlt : n < W) : 2 ^ ctz n ≤ n := by
  obtain ⟨m, hm⟩ := ctz_decomp n hn hlt
  calc 2 ^ ctz n = 2 ^ ctz n * 1 := by ring
  _ ≤ 2 ^ ctz n * (2 * m + 1) := by
      exact Nat.mul_le_mul_left _ (by omega)
  _ = n := hm.symm

theorem ctz_lt_32 (n : Nat) (hn : 0 < n) (hlt : n < W) : ctz n < 32 := by
  have h1 : 2 ^ ctz n ≤ n := two_pow_ctz_le n hn hlt
  by_contra h
  push_neg at h
  have : (2 : Nat) ^ 32 ≤ 2 ^ ctz n := Nat.pow_le_pow_right (by omega) h
  have : n < 2 ^ 32 := hlt
  omega

/-- Odd factors of powers of two are trivial. -/
theorem odd_factor_two_pow : ∀ k a x, 2 ^ a * (2 * x + 1) = 2 ^ k → x = 0 := by
  intro k
  induction k with
  | zero =>
    intro a x h
    simp only [pow_zero] at h
    have := Nat.eq_one_of_mul_eq_one_left h
    omega
  | succ k ih =>
    intro a x h
    cases a with
    | zero =>
      simp only [pow_zero, one_mul] at h
      have h2 : 2 ^ (k + 1) = 2 * 2 ^ k := by ring
      omega
    | succ a =>
      apply ih a x
      have h2 : 2 * (2 ^ a * (2 * x + 1)) = 2 * 2 ^ k := by
        calc 2 * (2 ^ a * (2 * x + 1)) = 2 ^ (a + 1) * (2 * x + 1) := by ring
        _ = 2 ^ (k + 1) := h
        _ = 2 * 2 ^ k := by ring
      exact Nat.eq_of_mul_eq_mul_left (by omega) h2

theorem ctz_two_pow (k : Nat) (hk : k < 32) : ctz (2 ^ k) = k := by
  have hpos : 0 < 2 ^ k := Nat.pos_pow_of_pos k (by omega)
  have hlt : 2 ^ k < W := by
    have : (2 : Nat) ^ k < 2 ^ 32 := Nat.pow_lt_pow_right (by omega) hk
    exact this
  obtain ⟨m, hm⟩ := ctz_decomp (2 ^ k) hpos hlt
  have hm0 : m = 0 := odd_factor_two_pow k (ctz (2 ^ k)) m hm.symm
  subst hm0
  simp only [Nat.mul_zero, Nat.zero_add, Nat.mul_one] at hm
  exact (Nat.pow_right_injective (by omega) hm.symm)

theorem bit_as_add (t : Bool) (y : Nat) : Nat.bit t y = 2 * y + (cond t 1 0) := by
  cases t <;> simp [Nat.bit]

theorem pow_succ_mul (k x : Nat) : 2 ^ (k + 1) * x = 2 * (2 ^ k * x) := by ring

/-- Distributivity of `&&&` over a split at bit `k`. -/
theorem land_two_pow_split : ∀ (k a b r s : Nat), r < 2 ^ k → s < 2 ^ k →
    (2 ^ k * a + r) &&& (2 ^ k * b + s) = 2 ^ k * (a &&& b) + (r &&& s) := by
  intro k
  induction k with
  | zero =>
    intro a b r s hr hs
    norm_num at hr hs
    subst hr
    subst hs
    simp
  | succ k ih =>
    intro a b r s hr hs
    have h2 : 2 ^ (k + 1) = 2 * 2 ^ k := by ring
    have hr2 : r / 2 < 2 ^ k := by omega
    have hs2 : s / 2 < 2 ^ k := by omega
    have key := ih a b (r / 2) (s / 2) hr2 hs2
    have hrd : r = Nat.bit (Nat.bodd r) (r / 2) := by
      rw [← Nat.div2_val, Nat.bit_decomp]
    have hsd : s = Nat.bit (Nat.bodd s) (s / 2) := by
      rw [← Nat.div2_val, Nat.bit_decomp]
    have hland : r &&& s = Nat.bit (Nat.bodd r && Nat.bodd s) ((r / 2) &&& (s / 2)) := by
      conv_lhs => rw [hrd, hsd]
      exact Nat.land_bit _ _ _ _
    have hr_eq := hrd
    rw [bit_as_add] at hr_eq
    have hs_eq := hsd
    rw [bit_as_add] at hs_eq
    have hA : 2 ^ (k + 1) * a + r = Nat.bit (Nat.bodd r) (2 ^ k * a + r / 2) := by
      rw [bit_as_add, pow_succ_mul]; omega
    have hB : 2 ^ (k + 1) * b + s = Nat.bit (Nat.bodd s) (2 ^ k * b + s / 2) := by
      rw [bit_as_add, pow_succ_mul]; omega
    rw [hA, hB, Nat.land_bit, key, hland, bit_as_add, bit_as_add, pow_succ_mul]
    omega

/-- Distributivity of `^^^` over a split at bit `k`. -/
theorem xor_two_pow_split : ∀ (k a b r s : Nat), r < 2 ^ k → s < 2 ^ k →
    (2 ^ k * a + r) ^^^ (2 ^ k * b + s) = 2 ^ k * (a ^^^ b) + (r ^^^ s) := by
  intro k
  induction k with
  | zero =>
    intro a b r s hr hs
    norm_num at hr hs
    subst hr
    subst hs
    simp
  | succ k ih =>
    intro a b r s hr hs
    have h2 : 2 ^ (k + 1) = 2 * 2 ^ k := by ring
    have hr2 : r / 2 < 2 ^ k := by omega
    have hs2 : s / 2 < 2 ^ k := by omega
    have key := ih a b (r / 2) (s / 2) hr2 hs2
    have hrd : r = Nat.bit (Nat.bodd r) (r / 2) := by
      rw [← Nat.div2_val, Nat.bit_decomp]
    have hsd : s = Nat.bit (Nat.bodd s) (s / 2) := by
      rw [← Nat.div2_val, Nat.bit_decomp]
    have hxor : r ^^^ s = Nat.bit (bne (Nat.bodd r) (Nat.bodd s)) ((r / 2) ^^^ (s / 2)) := by
      conv_lhs => rw [hrd, hsd]
      exact Nat.xor_bit _ _ _ _
    have hr_eq := hrd
    rw [bit_as_add] at hr_eq
    have hs_eq := hsd
    rw [bit_as_add] at hs_eq
    have hA : 2 ^ (k + 1) * a + r = Nat.bit (Nat.bodd r) (2 ^ k * a + r / 2) := by
      rw [bit_as_add, pow_succ_mul]; omega
    have hB : 2 ^ (k + 1) * b + s = Nat.bit (Nat.bodd s) (2 ^ k * b + s / 2) := by
      rw [bit_as_add, pow_succ_mul]; omega
    rw [hA, hB, Nat.xor_bit, key, hxor, bit_as_add, bit_as_add, pow_succ_mul]
    omega

theorem land_double_succ (m : Nat) : (2 * m + 1) &&& (2 * m) = 2 * m := by
  have h1 : 2 * m + 1 = Nat.bit true m := by simp [bit_as_add]
  have h2 : 2 * m = Nat.bit false m := by simp [bit_as_add]
  conv_lhs => rw [h1, h2]
  rw [Nat.land_bit]
  simp [bit_as_add, Nat.and_self]

theorem xor_double_succ (m : Nat) : (2 * m + 1) ^^^ 1 = 2 * m := by
  have h1 : 2 * m + 1 = Nat.bit true m := by simp [bit_as_add]
  have h2 : (1 : Nat) = Nat.bit true 0 := by simp [bit_as_add]
  conv_lhs => rw [h1, h2]
  rw [Nat.xor_bit]
  simp [bit_as_add]

/-- Clearing the low bit: on a nonzero 32-bit value, `n & (n - 1)` subtracts
the lowest set bit. -/
theorem land_pred_eq (n : Nat) (hn : 0 < n) (hlt : n < W) :
    n &&& (n - 1) = n - 2 ^ ctz n := by
  obtain ⟨m, hm⟩ := ctz_decomp n hn hlt
  have hp : 0 < 2 ^ ctz n := Nat.pos_pow_of_pos _ (by omega)
  have hAB : 2 ^ ctz n * (2 * m + 1) = 2 ^ ctz n * (2 * m) + 2 ^ ctz n := by ring
  have key := land_two_pow_split (ctz n) (2 * m + 1) (2 * m) 0 (2 ^ ctz n - 1) hp (by omega)
  rw [land_double_succ] at key
  rw [Nat.zero_and] at key
  have e1 : 2 ^ ctz n * (2 * m + 1) + 0 = n := by omega
  have e2 : 2 ^ ctz n * (2 * m) + (2 ^ ctz n - 1) = n - 1 := by omega
  rw [e1, e2] at key
  omega

/-- Fidelity of the `u_bit_scan` model: xoring out bit `ffs(n)-1` equals
`n & (n - 1)` on nonzero 32-bit values. -/
theorem u_bit_scan_xor_eq (n : Nat) (hn : 0 < n) (hlt : n < W) :
    n ^^^ (1 <<< (ffs n - 1)) = n &&& (n - 1) := by
  obtain ⟨m, hm⟩ := ctz_decomp n hn hlt
  have hp : 0 < 2 ^ ctz n := Nat.pos_pow_of_pos _ (by omega)
  have hffs : ffs n - 1 = ctz n := by
    simp [ffs, Nat.pos_iff_ne_zero.mp hn]
  have hshl : (1 : Nat) <<< (ffs n - 1) = 2 ^ ctz n := by
    rw [hffs, Nat.shiftLeft_eq, one_mul]
  have hAB : 2 ^ ctz n * (2 * m + 1) = 2 ^ ctz n * (2 * m) + 2 ^ ctz n := by ring
  have key := xor_two_pow_split (ctz n) (2 * m + 1) 1 0 0 hp hp
  rw [xor_double_succ] at key
  have hz : (0 : Nat) ^^^ 0 = 0 := by simp
  rw [hz] at key
  have e1 : 2 ^ ctz n * (2 * m + 1) + 0 = n := by omega
  have e3 : 2 ^ ctz n * 1 + 0 = 2 ^ ctz n := by omega
  rw [e1, e3] at key
  rw [hshl, key, land_pred_eq n hn hlt]
  omega

theorem u_bit_scan_eq (n : Nat) (hn : 0 < n) (hlt : n < W) :
    u_bit_scan n = (ctz n, n - 2 ^ ctz n) := by
  have hffs : ffs n - 1 = ctz n := by
    simp [ffs, Nat.pos_iff_ne_zero.mp hn]
  simp [u_bit_scan, hffs, land_pred_eq n hn hlt]

/-- A 32-bit value passing the `(v & (v-1)) == 0` test and nonzero is exactly
the power of two of its trailing-zero count. -/
theorem pow2_structure (n : Nat) (hn : 0 < n) (hlt : n < W)
    (h : util_is_power_of_two_or_zero n = true) : n = 2 ^ ctz n := by
  obtain ⟨m, hm⟩ := ctz_decomp n hn hlt
  have hland : n &&& (n - 1) = n - 2 ^ ctz n := land_pred_eq n hn hlt
  have hz : n &&& (n - 1) = 0 := by
    simpa [util_is_power_of_two_or_zero] using h
  have hp : 0 < 2 ^ ctz n := Nat.pos_pow_of_pos _ (by omega)
  have hle : 2 ^ ctz n ≤ n := two_pow_ctz_le n hn hlt
  omega

theorem pow2_nonzero_structure (n : Nat) (hlt : n < W)
    (h : util_is_power_of_two_nonzero n = true) : 0 < n ∧ n = 2 ^ ctz n := by
  have hn : n ≠ 0 := by
    by_contra h0
    subst h0
    simp [util_is_power_of_two_nonzero] at h
  refine ⟨by omega, pow2_structure n (by omega) hlt ?_⟩
  simp only [util_is_power_of_two_nonzero, Bool.and_eq_true] at h
  exact h.2

theorem pow2_or_zero_one : util_is_power_of_two_or_zero 1 = true := by decide

/-! ## IR data model (aco_ir.h, consumed as given data) -/

/-- Register domain: scalar (general-purpose/uniform) or vector (per-lane). -/
inductive RegType
  | sgpr
  | vgpr
deriving DecidableEq

/-- Register class: domain plus size in dwords (4-byte storage units). -/
structure RegClass where
  type : RegType
  size : Nat
deriving DecidableEq

/-- Size in bytes of a register class. -/
def RegClass.bytes (rc : RegClass) : Nat := 4 * rc.size

/-- The `v1` register class: one vector dword. -/
def v1 : RegClass := ⟨RegType.vgpr, 1⟩

/-- The `s1` register class: one scalar dword. -/
def s1 : RegClass := ⟨RegType.sgpr, 1⟩

/-- The `s2` register class: two scalar dwords. -/
def s2 : RegClass := ⟨RegType.sgpr, 2⟩

/-- Virtual register: allocation id plus register class. -/
structure Temp where
  id : Nat
  rc : RegClass
deriving DecidableEq

instance : Inhabited Temp := ⟨⟨0, v1⟩⟩

/-- The four fixed architectural registers bindable by the builder helpers. -/
inductive PhysReg
  | m0
  | vcc
  | exec
  | scc
deriving DecidableEq

/-- Operand payload: a Temp reference, an immediate constant, or undefined
(with a register class). -/
inductive OpKind
  | temp (t : Temp)
  | const (v : Nat)
  | undef (rc : RegClass)
deriving DecidableEq

/-- Operand: payload plus optional fixed physical-register placement. -/
structure Operand where
  kind : OpKind
  fixed : Option PhysReg := none
deriving DecidableEq

instance : Inhabited Operand := ⟨⟨OpKind.const 0, none⟩⟩

def Operand.ofTemp (t : Temp) : Operand := ⟨OpKind.temp t, none⟩

def Operand.ofConst (v : Nat) : Operand := ⟨OpKind.const v, none⟩

def Operand.undefRC (rc : RegClass) : Operand := ⟨OpKind.undef rc, none⟩

def Operand.isTemp (o : Operand) : Bool :=
  match o.kind with
  | OpKind.temp _ => true
  | _ => false

def Operand.isUndefined (o : Operand) : Bool :=
  match o.kind with
  | OpKind.undef _ => true
  | _ => false

/-- hasRegClass(): true for Temp references and (class-carrying) undefined
operands, false for constants. -/
def Operand.hasRegClass (o : Operand) : Bool := o.isTemp || o.isUndefined

/-- The register class of a class-carrying operand. -/
def Operand.regClassO (o : Operand) : Option RegClass :=
  match o.kind with
  | OpKind.temp t => some t.rc
  | OpKind.undef rc => some rc
  | OpKind.const _ => none

/-- The register type of a class-carrying operand. -/
def Operand.regTypeO (o : Operand) : Option RegType := (o.regClassO).map RegClass.type

/-- Whether the operand is a Temp reference of vector domain
(`b.op.isTemp() && b.op.regClass().type() == RegType::vgpr`). -/
def Operand.isVgprTemp (o : Operand) : Bool :=
  match o.kind with
  | OpKind.temp t => t.rc.type == RegType.vgpr
  | _ => false

def Operand.getTemp (o : Operand) : Temp :=
  match o.kind with
  | OpKind.temp t => t
  | _ => default

def Operand.setFixedReg (o : Operand) (r : PhysReg) : Operand := { o with fixed := some r }

/-- Definition: write target (always a Temp here), optional fixed placement,
optional placement hint, and the precise/no-unsigned-wrap flags. -/
structure Definition where
  temp : Temp
  fixed : Option PhysReg := none
  hint : Option PhysReg := none
  precise : Bool := false
  nuw : Bool := false
deriving DecidableEq

instance : Inhabited Definition := ⟨⟨⟨0, v1⟩, none, none, false, false⟩⟩

def Definition.ofTemp (t : Temp) : Definition := ⟨t, none, none, false, false⟩

def Definition.setHintReg (d : Definition) (r : PhysReg) : Definition := { d with hint := some r }

def Definition.setFixedReg (d : Definition) (r : PhysReg) : Definition := { d with fixed := some r }

def Definition.regClassD (d : Definition) : RegClass := d.temp.rc

def Definition.bytes (d : Definition) : Nat := d.temp.rc.bytes

/-- Instruction format tags (only the formats the verified helpers emit). -/
inductive Format
  | PSEUDO
  | VOP2
  | VOP3
deriving DecidableEq

/-- Opcodes used by the modelled builder helpers and the generation
adapter. -/
inductive aco_opcode
  | p_parallelcopy
  | v_lshlrev_b32
  | v_mul_u32_u24
  | v_mul_lo_u32
  | v_add_u32
  | v_add_co_u32
  | v_add_co_u32_e64
  | v_addc_co_u32
  | v_sub_u32
  | v_subrev_u32
  | v_sub_co_u32
  | v_subrev_co_u32
  | v_subb_co_u32
  | v_subbrev_co_u32
  | v_sub_co_u32_e64
  | v_subrev_co_u32_e64
  | s_cselect_b64
  | s_cselect_b32
  | s_cmp_lg_u64
  | s_cmp_lg_u32
  | s_and_b64
  | s_and_b32
  | s_andn2_b64
  | s_andn2_b32
  | s_or_b64
  | s_or_b32
  | s_orn2_b64
  | s_orn2_b32
  | s_not_b64
  | s_not_b32
  | s_mov_b64
  | s_mov_b32
  | s_wqm_b64
  | s_wqm_b32
  | s_and_saveexec_b64
  | s_and_saveexec_b32
  | s_or_saveexec_b64
  | s_or_saveexec_b32
  | s_xnor_b64
  | s_xnor_b32
  | s_xor_b64
  | s_xor_b32
  | s_bcnt1_i32_b64
  | s_bcnt1_i32_b32
  | s_bitcmp1_b64
  | s_bitcmp1_b32
  | s_ff1_i32_b64
  | s_ff1_i32_b32
  | s_flbit_i32_b64
  | s_flbit_i32_b32
  | s_lshl_b64
  | s_lshl_b32
deriving DecidableEq

/-- Instruction record: opcode, format tag, operands and definitions. -/
structure Instruction where
  opcode : aco_opcode
  format : Format
  operands : List Operand
  definitions : List Definition
deriving DecidableEq

/-- The first result of an instruction as a Temp
(`Result::operator Temp() = instr->definitions[0].getTemp()`). -/
def Instruction.resultTemp (i : Instruction) : Temp := (i.definitions.getD 0 default).temp

/-- Generation tier constants (chip_class values, ordered). -/
def GFX7 : Nat := 7

def GFX8 : Nat := 8

def GFX9 : Nat := 9

def GFX10 : Nat := 10

/-- Program: target generation, wavefront width, lane-mask register class. -/
structure Program where
  chip_class : Nat
  wave_size : Nat
  lane_mask : RegClass
deriving DecidableEq

/-! ## Builder state

The C++ `Builder` holds a `Program*` and an insertion target.  For the
arithmetic helpers we model a builder in its default append mode
(`use_iterator == false`, `start == false`, `instructions != NULL`): each
`insert` appends to the emitted list.  The Temp-id allocator of the Program
is the `nextId` counter. -/

structure BState where
  program : Program
  nextId : Nat
  emitted : List Instruction
  is_precise : Bool := false
  is_nuw : Bool := false
deriving DecidableEq

/-- Program::allocateTmp. -/
def BState.allocTmp (st : BState) (rc : RegClass) : Temp × BState :=
  (⟨st.nextId, rc⟩, { st with nextId := st.nextId + 1 })

/-- Builder::def(rc): a Definition of a freshly allocated Temp. -/
def BState.defOf (st : BState) (rc : RegClass) : Definition × BState :=
  let (t, st1) := st.allocTmp rc
  (Definition.ofTemp t, st1)

/-- The generic constructor applies the builder's precise/nuw flags to every
definition (`setPrecise(is_precise); setNUW(is_nuw)`). -/
def applyFlags (st : BState) (d : Definition) : Definition :=
  { d with precise := st.is_precise, nuw := st.is_nuw }

/-- Builder::insert in append mode: emplace_back. -/
def BState.insertInstr (st : BState) (i : Instruction) : Instruction × BState :=
  (i, { st with emitted := st.emitted ++ [i] })

/-- The generated per-shape factory (§4.1): create the record, copy
definitions (applying flags) and operands positionally, insert. -/
def BState.emitF (st : BState) (op : aco_opcode) (fmt : Format)
    (defs : List Definition) (ops : List Operand) : Instruction × BState :=
  st.insertInstr ⟨op, fmt, ops, defs.map (applyFlags st)⟩

/-- Builder::copy: `pseudo(aco_opcode::p_parallelcopy, dst, op)`. -/
def copy (st : BState) (dst : Definition) (op : Operand) : Instruction × BState :=
  st.emitF aco_opcode.p_parallelcopy Format.PSEUDO [dst] [op]

/-! ## Generation adapter (Builder::w64or32, §4.3) -/

/-- The enumerated set of wave-specific logical opcodes; each enumerator's
value is the corresponding 64-bit concrete opcode. -/
inductive WaveSpecificOpcode
  | s_cselect
  | s_cmp_lg
  | s_and
  | s_andn2
  | s_or
  | s_orn2
  | s_not
  | s_mov
  | s_wqm
  | s_and_saveexec
  | s_or_saveexec
  | s_xnor
  | s_xor
  | s_bcnt1_i32
  | s_bitcmp1
  | s_ff1_i32
  | s_flbit_i32
  | s_lshl
deriving DecidableEq

/-- The underlying 64-bit concrete opcode of a wave-specific enumerator. -/
def WaveSpecificOpcode.toB64 : WaveSpecificOpcode → aco_opcode
  | s_cselect => aco_opcode.s_cselect_b64
  | s_cmp_lg => aco_opcode.s_cmp_lg_u64
  | s_and => aco_opcode.s_and_b64
  | s_andn2 => aco_opcode.s_andn2_b64
  | s_or => aco_opcode.s_or_b64
  | s_orn2 => aco_opcode.s_orn2_b64
  | s_not => aco_opcode.s_not_b64
  | s_mov => aco_opcode.s_mov_b64
  | s_wqm => aco_opcode.s_wqm_b64
  | s_and_saveexec => aco_opcode.s_and_saveexec_b64
  | s_or_saveexec => aco_opcode.s_or_saveexec_b64
  | s_xnor => aco_opcode.s_xnor_b64
  | s_xor => aco_opcode.s_xor_b64
  | s_bcnt1_i32 => aco_opcode.s_bcnt1_i32_b64
  | s_bitcmp1 => aco_opcode.s_bitcmp1_b64
  | s_ff1_i32 => aco_opcode.s_ff1_i32_b64
  | s_flbit_i32 => aco_opcode.s_flbit_i32_b64
  | s_lshl => aco_opcode.s_lshl_b64

/-- The wave32 dispatch switch of w64or32: maps each 64-bit wave-specific
opcode to its 32-bit variant; any opcode outside the mapped set hits the
`unreachable("Unsupported wave specific opcode.")` default, modelled as
`none`. -/
def wave32Switch : aco_opcode → Option aco_opcode
  | aco_opcode.s_cselect_b64 => some aco_opcode.s_cselect_b32
  | aco_opcode.s_cmp_lg_u64 => some aco_opcode.s_cmp_lg_u32
  | aco_opcode.s_and_b64 => some aco_opcode.s_and_b32
  | aco_opcode.s_andn2_b64 => some aco_opcode.s_andn2_b32
  | aco_opcode.s_or_b64 => some aco_opcode.s_or_b32
  | aco_opcode.s_orn2_b64 => some aco_opcode.s_orn2_b32
  | aco_opcode.s_not_b64 => some aco_opcode.s_not_b32
  | aco_opcode.s_mov_b64 => some aco_opcode.s_mov_b32
  | aco_opcode.s_wqm_b64 => some aco_opcode.s_wqm_b32
  | aco_opcode.s_and_saveexec_b64 => some aco_opcode.s_and_saveexec_b32
  | aco_opcode.s_or_saveexec_b64 => some aco_opcode.s_or_saveexec_b32
  | aco_opcode.s_xnor_b64 => some aco_opcode.s_xnor_b32
  | aco_opcode.s_xor_b64 => some aco_opcode.s_xor_b32
  | aco_opcode.s_bcnt1_i32_b64 => some aco_opcode.s_bcnt1_i32_b32
  | aco_opcode.s_bitcmp1_b64 => some aco_opcode.s_bitcmp1_b32
  | aco_opcode.s_ff1_i32_b64 => some aco_opcode.s_ff1_i32_b32
  | aco_opcode.s_flbit_i32_b64 => some aco_opcode.s_flbit_i32_b32
  | aco_opcode.s_lshl_b64 => some aco_opcode.s_lshl_b32
  | _ => none

/-- Membership in the mapped set of the generation adapter. -/
def isWaveSpecific (c : aco_opcode) : Bool := (wave32Switch c).isSome

/-- Builder::w64or32: wave64 returns the enumerator's own value; wave32
dispatches through the switch (whose default is a fatal fault). -/
def w64or32 (p : Program) (op : WaveSpecificOpcode) : Option aco_opcode :=
  if p.wave_size = 64 then some op.toB64 else wave32Switch op.toB64

/-! ## Fixed and hinted architectural registers (§4.4)

The vcc and exec helpers assert
`type() == RegType::sgpr && bytes() <= 8`; a violation is a fault,
modelled as `none`.  The m0 and scc helpers have no constraint. -/

def vccOp (t : Temp) : Option Operand :=
  if t.rc.type = RegType.sgpr ∧ t.rc.bytes ≤ 8 then
    some ((Operand.ofTemp t).setFixedReg PhysReg.vcc)
  else none

def execOp (t : Temp) : Option Operand :=
  if t.rc.type = RegType.sgpr ∧ t.rc.bytes ≤ 8 then
    some ((Operand.ofTemp t).setFixedReg PhysReg.exec)
  else none

def m0Op (t : Temp) : Operand := (Operand.ofTemp t).setFixedReg PhysReg.m0

def sccOp (t : Temp) : Operand := (Operand.ofTemp t).setFixedReg PhysReg.scc

def vccDef (d : Definition) : Option Definition :=
  if d.regClassD.type = RegType.sgpr ∧ d.bytes ≤ 8 then
    some (d.setFixedReg PhysReg.vcc)
  else none

def execDef (d : Definition) : Option Definition :=
  if d.regClassD.type = RegType.sgpr ∧ d.bytes ≤ 8 then
    some (d.setFixedReg PhysReg.exec)
  else none

def hint_vcc (d : Definition) : Option Definition :=
  if d.regClassD.type = RegType.sgpr ∧ d.bytes ≤ 8 then
    some (d.setHintReg PhysReg.vcc)
  else none

def hint_exec (d : Definition) : Option Definition :=
  if d.regClassD.type = RegType.sgpr ∧ d.bytes ≤ 8 then
    some (d.setHintReg PhysReg.exec)
  else none

/-- For scalar definitions of at most two dwords (every lane-mask class) the
hint_vcc assertion always passes. -/
theorem hint_vcc_scalar (d : Definition) (h1 : d.temp.rc.type = RegType.sgpr)
    (h2 : d.temp.rc.size ≤ 2) : hint_vcc d = some (d.setHintReg PhysReg.vcc) := by
  simp [hint_vcc, Definition.regClassD, Definition.bytes, RegClass.bytes, h1]
  omega

/-! ## Carry-propagating add (Builder::vadd32, §4.7)

Inside vadd32 the carry definition is built as `hint_vcc(def(lm))`; the
assertion inside hint_vcc always passes there because every lane-mask class
is scalar and of at most two dwords (s1 or s2), see `hint_vcc_scalar`, so
the model applies the hint directly. -/

def vadd32 (st : BState) (dst : Definition) (a0 b0 : Operand) (carry_out : Bool)
    (carry_in : Operand) (post_ra : Bool) : Instruction × BState :=
  let p := if ¬ b0.isVgprTemp then (b0, a0) else (a0, b0)
  let a := p.1
  let b1 := p.2
  let q : Operand × BState :=
    if ¬ post_ra ∧ (¬ b1.hasRegClass ∨ b1.regTypeO = some RegType.sgpr) then
      let (d, st1) := st.defOf v1
      let (_, st2) := copy st1 d b1
      (Operand.ofTemp d.temp, st2)
    else (b1, st)
  let b := q.1
  let st1 := q.2
  if ¬ carry_in.isUndefined then
    let (cd, st2) := st1.defOf st1.program.lane_mask
    st2.emitF aco_opcode.v_addc_co_u32 Format.VOP2
      [dst, cd.setHintReg PhysReg.vcc] [a, b, carry_in]
  else if st1.program.chip_class ≥ GFX10 ∧ carry_out then
    let (cd, st2) := st1.defOf st1.program.lane_mask
    st2.emitF aco_opcode.v_add_co_u32_e64 Format.VOP3 [dst, cd] [a, b]
  else if st1.program.chip_class < GFX9 ∨ carry_out then
    let (cd, st2) := st1.defOf st1.program.lane_mask
    st2.emitF aco_opcode.v_add_co_u32 Format.VOP2
      [dst, cd.setHintReg PhysReg.vcc] [a, b]
  else
    st1.emitF aco_opcode.v_add_u32 Format.VOP2 [dst] [a, b]

/-! ## Borrow-propagating subtract (Builder::vsub32, §4.8) -/

def vsub32 (st : BState) (dst : Definition) (a0 b0 : Operand) (carry_out0 : Bool)
    (borrow : Operand) : Instruction × BState :=
  let carry_out :=
    if ¬ borrow.isUndefined ∨ st.program.chip_class < GFX9 then true else carry_out0
  let reverse : Bool := ! b0.isVgprTemp
  let p := if reverse then (b0, a0) else (a0, b0)
  let a := p.1
  let b1 := p.2
  let q : Operand × BState :=
    if ¬ b1.hasRegClass ∨ b1.regTypeO = some RegType.sgpr then
      let (d, st1) := st.defOf v1
      let (_, st2) := copy st1 d b1
      (Operand.ofTemp d.temp, st2)
    else (b1, st)
  let b := q.1
  let st1 := q.2
  let ct : Option Temp × BState :=
    if carry_out then
      let (c, st2) := st1.allocTmp s2
      (some c, st2)
    else (none, st1)
  let carry := ct.1
  let st2 := ct.2
  let op1 : aco_opcode :=
    if carry_out then
      if borrow.isUndefined then
        (if reverse then aco_opcode.v_subrev_co_u32 else aco_opcode.v_sub_co_u32)
      else
        (if reverse then aco_opcode.v_subbrev_co_u32 else aco_opcode.v_subb_co_u32)
    else (if reverse then aco_opcode.v_subrev_u32 else aco_opcode.v_sub_u32)
  let vop3sel : Bool × aco_opcode :=
    if st2.program.chip_class ≥ GFX10 ∧ op1 = aco_opcode.v_subrev_co_u32 then
      (true, aco_opcode.v_subrev_co_u32_e64)
    else if st2.program.chip_class ≥ GFX10 ∧ op1 = aco_opcode.v_sub_co_u32 then
      (true, aco_opcode.v_sub_co_u32_e64)
    else (false, op1)
  let ops := if borrow.isUndefined then [a, b] else [a, b, borrow]
  let defs :=
    match carry with
    | some c => [dst, (Definition.ofTemp c).setHintReg PhysReg.vcc]
    | none => [dst]
  st2.insertInstr ⟨vop3sel.2, if vop3sel.1 then Format.VOP3 else Format.VOP2, ops, defs⟩

/-! ## Cost-based multiply-by-immediate (Builder::v_mul_imm, §4.6) -/

/-- Modelled from the spec: `Operand(uint32_t).isLiteral()` is defined in
`aco_ir.h`, which is outside this repository snapshot.  A 32-bit constant is
encodable inline iff it is 0..64, the two's-complement encoding of -16..-1,
or one of the hardware float-constant bit patterns; otherwise it "cannot be
encoded inline (requires a literal slot)". -/
def isLiteralImm (v : Nat) : Bool :=
  !(decide (v ≤ 64) || decide (4294967280 ≤ v ∧ v ≤ 4294967295) ||
    decide (v = 0x3f000000) || decide (v = 0xbf000000) ||
    decide (v = 0x3f800000) || decide (v = 0xbf800000) ||
    decide (v = 0x40000000) || decide (v = 0xc0000000) ||
    decide (v = 0x40800000) || decide (v = 0xc0800000) ||
    decide (v = 0x3e22f983))

/-- The multiply-cost estimate of v_mul_imm:
`program->chip_class >= GFX10 ? 1 : (4 + Operand(imm).isLiteral())`. -/
def mul_cost (p : Program) (imm : Nat) : Nat :=
  if p.chip_class ≥ GFX10 then 1 else 4 + (if isLiteralImm imm then 1 else 0)

/-- The shift/add decomposition cost of v_mul_imm: `util_bitcount(imm)`
when the target has a fused shift-and-add (GFX9+), otherwise
`(util_bitcount(imm) - (imm & 0x1))` shifts plus
`(util_bitcount(imm) - 1)` additions. -/
def instrs_required_for (p : Program) (imm : Nat) : Nat :=
  if p.chip_class ≥ GFX9 then util_bitcount imm
  else (util_bitcount imm - (imm &&& 1)) + (util_bitcount imm - 1)

/-- The while-loop of v_mul_imm: walks the set bits of `imm` from least to
most significant, keeping the running partial result in `cur` (a
default-constructed Temp, id 0, when absent).  `tmp_dst` is allocated before
the branch (`imm ? def(v1) : dst`) and overridden by `Definition(tmp)` in
the bit-0-first case. -/
def mulLoop (dst : Definition) (t : Temp) (imm : Nat) (cur : Temp)
    (res : Option Instruction) (st : BState) : Option Instruction × BState :=
  if himm : imm = 0 then (res, st)
  else
    let scan := u_bit_scan imm
    let shift := scan.1
    let imm2 := scan.2
    let ts : Definition × BState := if imm2 ≠ 0 then st.defOf v1 else (dst, st)
    let tmp_dst := ts.1
    let st1 := ts.2
    if shift ≠ 0 ∧ cur.id ≠ 0 then
      let (d2, st2) := st1.defOf v1
      let (shl, st3) := st2.emitF aco_opcode.v_lshlrev_b32 Format.VOP2 [d2]
        [Operand.ofConst shift, Operand.ofTemp t]
      let (add, st4) := vadd32 st3 tmp_dst (Operand.ofTemp shl.resultTemp)
        (Operand.ofTemp cur) false (Operand.undefRC s2) false
      mulLoop dst t imm2 tmp_dst.temp (some add) st4
    else if shift ≠ 0 then
      let (shl, st2) := st1.emitF aco_opcode.v_lshlrev_b32 Format.VOP2 [tmp_dst]
        [Operand.ofConst shift, Operand.ofTemp t]
      mulLoop dst t imm2 tmp_dst.temp (some shl) st2
    else if cur.id ≠ 0 then
      let (add, st2) := vadd32 st1 tmp_dst (Operand.ofTemp t)
        (Operand.ofTemp cur) false (Operand.undefRC s2) false
      mulLoop dst t imm2 tmp_dst.temp (some add) st2
    else
      mulLoop dst t imm2 t res st1
termination_by imm
decreasing_by
  all_goals
    simp only [u_bit_scan]
    have h := Nat.and_le_right (n := imm) (m := imm - 1)
    omega

/-- Builder::v_mul_imm.  The `assert(tmp.type() == RegType::vgpr)`
precondition appears as a hypothesis of the correctness theorems.  Returns
the final instruction (`Result res(NULL)` modelled as `Option`). -/
def v_mul_imm (st : BState) (dst : Definition) (t : Temp) (imm : Nat)
    (bits24 : Bool) : Option Instruction × BState :=
  let mc := mul_cost st.program imm
  if imm = 0 then
    let (i, st1) := copy st dst (Operand.ofConst 0)
    (some i, st1)
  else if imm = 1 then
    let (i, st1) := copy st dst (Operand.ofTemp t)
    (some i, st1)
  else if util_is_power_of_two_or_zero imm then
    let (i, st1) := st.emitF aco_opcode.v_lshlrev_b32 Format.VOP2 [dst]
      [Operand.ofConst (ffs imm - 1), Operand.ofTemp t]
    (some i, st1)
  else if bits24 then
    let (i, st1) := st.emitF aco_opcode.v_mul_u32_u24 Format.VOP2 [dst]
      [Operand.ofConst imm, Operand.ofTemp t]
    (some i, st1)
  else if util_is_power_of_two_nonzero (imm - 1) then
    let (d1, st1) := st.defOf v1
    let (shl, st2) := st1.emitF aco_opcode.v_lshlrev_b32 Format.VOP2 [d1]
      [Operand.ofConst (ffs (imm - 1) - 1), Operand.ofTemp t]
    let (i, st3) := vadd32 st2 dst (Operand.ofTemp shl.resultTemp)
      (Operand.ofTemp t) false (Operand.undefRC s2) false
    (some i, st3)
  else if mc > 2 ∧ util_is_power_of_two_nonzero ((imm + 1) % W) then
    let (d1, st1) := st.defOf v1
    let (shl, st2) := st1.emitF aco_opcode.v_lshlrev_b32 Format.VOP2 [d1]
      [Operand.ofConst (ffs ((imm + 1) % W) - 1), Operand.ofTemp t]
    let (i, st3) := vsub32 st2 dst (Operand.ofTemp shl.resultTemp)
      (Operand.ofTemp t) false (Operand.undefRC s2)
    (some i, st3)
  else if instrs_required_for st.program imm < mc then
    mulLoop dst t imm ⟨0, v1⟩ none st
  else
    let (sd, st1) := st.defOf s1
    let (_, st2) := copy st1 sd (Operand.ofConst imm)
    let (i, st3) := st2.emitF aco_opcode.v_mul_lo_u32 Format.VOP3 [dst]
      [Operand.ofTemp sd.temp, Operand.ofTemp t]
    (some i, st3)

/-- Builder::v_mul24_imm: `v_mul_imm(dst, tmp, imm, true)`. -/
def v_mul24_imm (st : BState) (dst : Definition) (t : Temp) (imm : Nat) :
    Option Instruction × BState :=
  v_mul_imm st dst t imm true

/-! ## Insertion context (Builder::insert, §4.2) -/

/-- List insertion at an index (`std::vector::emplace(it, x)`). -/
def insertAt : List Instruction → Nat → Instruction → List Instruction
  | l, 0, x => x :: l
  | [], _ + 1, x => [x]
  | a :: l, n + 1, x => a :: insertAt l n x

/-- The insertion-relevant part of a Builder: target mode flags, the target
sequence and the cursor. -/
structure InsBuilder where
  use_iterator : Bool
  start : Bool
  instructions : Option (List Instruction)
  it : Nat
deriving DecidableEq

/-- Builder::insert: cursor mode emplaces at the cursor and advances it;
default mode appends; start mode prepends; no target constructs without
inserting. -/
def InsBuilder.insertI (b : InsBuilder) (i : Instruction) : InsBuilder :=
  match b.instructions with
  | none => b
  | some l =>
    if b.use_iterator then
      { b with instructions := some (insertAt l b.it i), it := b.it + 1 }
    else if ! b.start then
      { b with instructions := some (l ++ [i]) }
    else
      { b with instructions := some (i :: l) }

/-- Repeated insertion of a list of instructions in call order. -/
def InsBuilder.insertAll (b : InsBuilder) : List Instruction → InsBuilder
  | [] => b
  | i :: is => (b.insertI i).insertAll is

/-! ## Evaluation of emitted instruction sequences

The numeric semantics of the emitted VALU opcodes, modulo `2^32`; an
environment maps Temp ids to values. -/

/-- The value of an operand under an environment. -/
def oval (env : Nat → Nat) (o : Operand) : Nat :=
  match o.kind with
  | OpKind.temp t => env t.id
  | OpKind.const v => v
  | OpKind.undef _ => 0

/-- 32-bit wrapping subtraction. -/
def sub32 (x y : Nat) : Nat := (x % W + (W - y % W)) % W

/-- The values an instruction writes to its definitions, positionally.
Opcodes never evaluated by the theorems write nothing. -/
def instrSem (env : Nat → Nat) (i : Instruction) : List Nat :=
  let a := oval env (i.operands.getD 0 default)
  let b := oval env (i.operands.getD 1 default)
  let c := oval env (i.operands.getD 2 default)
  match i.opcode with
  | aco_opcode.p_parallelcopy => [a]
  | aco_opcode.v_lshlrev_b32 => [(b <<< (a % 32)) % W]
  | aco_opcode.v_mul_u32_u24 => [((a % 16777216) * (b % 16777216)) % W]
  | aco_opcode.v_mul_lo_u32 => [(a * b) % W]
  | aco_opcode.v_add_u32 => [(a + b) % W]
  | aco_opcode.v_add_co_u32 => [(a + b) % W, (a + b) / W]
  | aco_opcode.v_add_co_u32_e64 => [(a + b) % W, (a + b) / W]
  | aco_opcode.v_addc_co_u32 =>
      [(a + b + min c 1) % W, (a + b + min c 1) / W]
  | aco_opcode.v_sub_u32 => [sub32 a b]
  | aco_opcode.v_subrev_u32 => [sub32 b a]
  | aco_opcode.v_sub_co_u32 => [sub32 a b, if a % W < b % W then 1 else 0]
  | aco_opcode.v_sub_co_u32_e64 => [sub32 a b, if a % W < b % W then 1 else 0]
  | aco_opcode.v_subrev_co_u32 => [sub32 b a, if b % W < a % W then 1 else 0]
  | aco_opcode.v_subrev_co_u32_e64 => [sub32 b a, if b % W < a % W then 1 else 0]
  | aco_opcode.v_subb_co_u32 =>
      [sub32 (sub32 a b) (min c 1), if a % W < b % W + min c 1 then 1 else 0]
  | aco_opcode.v_subbrev_co_u32 =>
      [sub32 (sub32 b a) (min c 1), if b % W < a % W + min c 1 then 1 else 0]
  | _ => []

/-- Write a list of values to a list of definitions, positionally. -/
def updEnv : (Nat → Nat) → List Definition → List Nat → (Nat → Nat)
  | env, d :: ds, v :: vs =>
      updEnv (fun j => if j = d.temp.id then v else env j) ds vs
  | env, _, _ => env

def evalInstr (env : Nat → Nat) (i : Instruction) : Nat → Nat :=
  updEnv env i.definitions (instrSem env i)

def evalList : List Instruction → (Nat → Nat) → (Nat → Nat)
  | [], env => env
  | i :: is, env => evalList is (evalInstr env i)

/-- Whether an instruction writes the given Temp id in any definition. -/
def writesId (i : Instruction) (id : Nat) : Bool :=
  i.definitions.any (fun d => d.temp.id == id)

/-- Number of instructions of a sequence writing the given Temp id. -/
def countWrites (l : List Instruction) (id : Nat) : Nat :=
  (l.filter (fun i => writesId i id)).length

/-! ## Claim C7: the generation adapter -/

/-- C7: w64or32 is a pure, deterministic function of (logical opcode,
wavefront width): every mapped opcode yields a concrete opcode at width 32
and a distinct concrete opcode at width 64, and an opcode outside the
mapped set hits the fatal-fault default of the dispatch switch. -/
theorem w64or32_adapter (p32 p64 : Program) (h32 : p32.wave_size = 32)
    (h64 : p64.wave_size = 64) :
    (∀ op : WaveSpecificOpcode,
      (w64or32 p32 op).isSome ∧ (w64or32 p64 op).isSome ∧
        w64or32 p32 op ≠ w64or32 p64 op) ∧
    (∀ c : aco_opcode, isWaveSpecific c = false → wave32Switch c = none) := by
  constructor
  · intro op
    cases op <;>
      simp [w64or32, h32, h64, wave32Switch, WaveSpecificOpcode.toB64]
  · intro c h
    revert h
    cases c <;> simp [isWaveSpecific, wave32Switch]

/-- Witness for C7 at a concrete program pair, opcode and non-mapped
opcode. -/
theorem w64or32_adapter_witness :
    ((w64or32 ⟨9, 32, s1⟩ WaveSpecificOpcode.s_and).isSome ∧
      (w64or32 ⟨9, 64, s2⟩ WaveSpecificOpcode.s_and).isSome ∧
      w64or32 ⟨9, 32, s1⟩ WaveSpecificOpcode.s_and ≠
        w64or32 ⟨9, 64, s2⟩ WaveSpecificOpcode.s_and) ∧
    wave32Switch aco_opcode.v_add_u32 = none :=
  ⟨(w64or32_adapter ⟨9, 32, s1⟩ ⟨9, 64, s2⟩ rfl rfl).1 WaveSpecificOpcode.s_and,
   (w64or32_adapter ⟨9, 32, s1⟩ ⟨9, 64, s2⟩ rfl rfl).2 aco_opcode.v_add_u32 rfl⟩

/-! ## Claim C8: cursor insertion -/

theorem insertAt_append (pre suf : List Instruction) (x : Instruction) :
    insertAt (pre ++ suf) pre.length x = pre ++ x :: suf := by
  induction pre with
  | nil => cases suf <;> rfl
  | cons a l ih => simpa [insertAt] using ih

/-- C8: with a cursor insertion target, inserting N instructions yields
prefix ++ [instructions in call order] ++ suffix, with the cursor advanced
past all of them; each single insert advances the cursor by one. -/
theorem cursor_insert_order (pre suf news : List Instruction) (start : Bool) :
    InsBuilder.insertAll ⟨true, start, some (pre ++ suf), pre.length⟩ news =
      ⟨true, start, some (pre ++ news ++ suf), pre.length + news.length⟩ ∧
    (∀ (st0 : Bool) (l : List Instruction) (k : Nat) (i : Instruction),
      (InsBuilder.insertI ⟨true, st0, some l, k⟩ i).it = k + 1) := by
  constructor
  · induction news generalizing pre with
    | nil => simp [InsBuilder.insertAll]
    | cons i is ih =>
      simp only [InsBuilder.insertAll, InsBuilder.insertI, insertAt_append]
      have h := ih (pre ++ [i])
      simp only [List.append_assoc, List.singleton_append, List.length_append,
        List.length_singleton] at h
      simpa [List.append_assoc, Nat.add_assoc, Nat.add_comm, Nat.add_left_comm] using h
  · intro st0 l k i
    simp [InsBuilder.insertI]

/-! ## Claim C9: fixed-register binding constraints -/

/-- C9: binding the width/domain-constrained fixed registers (vcc, exec)
onto an Operand or Definition faults when the Temp is vector-domain or
wider than 8 bytes, and succeeds leaving the referenced virtual register
unchanged when it is a general-purpose-domain Temp of at most 8 bytes. -/
theorem fixed_reg_binding (t : Temp) (d : Definition) :
    (t.rc.type = RegType.vgpr ∨ 8 < t.rc.bytes →
      vccOp t = none ∧ execOp t = none) ∧
    (t.rc.type = RegType.sgpr ∧ t.rc.bytes ≤ 8 →
      ∃ o1 o2, vccOp t = some o1 ∧ o1.kind = OpKind.temp t ∧
        execOp t = some o2 ∧ o2.kind = OpKind.temp t) ∧
    (d.temp.rc.type = RegType.vgpr ∨ 8 < d.temp.rc.bytes →
      vccDef d = none ∧ execDef d = none ∧
        hint_vcc d = none ∧ hint_exec d = none) ∧
    (d.temp.rc.type = RegType.sgpr ∧ d.temp.rc.bytes ≤ 8 →
      ∃ d1 d2 d3 d4, vccDef d = some d1 ∧ d1.temp = d.temp ∧
        execDef d = some d2 ∧ d2.temp = d.temp ∧
        hint_vcc d = some d3 ∧ d3.temp = d.temp ∧
        hint_exec d = some d4 ∧ d4.temp = d.temp) := by
  refine ⟨?_, ?_, ?_, ?_⟩
  · intro h
    have hng : ¬ (t.rc.type = RegType.sgpr ∧ t.rc.bytes ≤ 8) := by
      rcases h with h | h
      · intro hc
        rw [h] at hc
        exact absurd hc.1 (by simp)
      · intro hc
        omega
    simp [vccOp, execOp, hng]
  · intro h
    refine ⟨(Operand.ofTemp t).setFixedReg PhysReg.vcc,
      (Operand.ofTemp t).setFixedReg PhysReg.exec, ?_, rfl, ?_, rfl⟩ <;>
      simp [vccOp, execOp, h]
  · intro h
    have hng : ¬ (d.regClassD.type = RegType.sgpr ∧ d.bytes ≤ 8) := by
      rcases h with h | h
      · intro hc
        rw [Definition.regClassD, h] at hc
        exact absurd hc.1 (by simp)
      · intro hc
        rw [Definition.bytes] at hc
        omega
    simp [vccDef, execDef, hint_vcc, hint_exec, hng]
  · intro h
    have hg : d.regClassD.type = RegType.sgpr ∧ d.bytes ≤ 8 := by
      exact ⟨h.1, h.2⟩
    refine ⟨d.setFixedReg PhysReg.vcc, d.setFixedReg PhysReg.exec,
      d.setHintReg PhysReg.vcc, d.setHintReg PhysReg.exec,
      ?_, rfl, ?_, rfl, ?_, rfl, ?_, rfl⟩ <;>
      simp [vccDef, execDef, hint_vcc, hint_exec, hg]

/-- Witness for C9: a vector-domain Temp faults; a 2-dword scalar Temp
binds successfully. -/
theorem fixed_reg_binding_witness :
    (vccOp ⟨5, v1⟩ = none ∧ execOp ⟨5, v1⟩ = none) ∧
    (∃ o1 o2, vccOp ⟨5, s2⟩ = some o1 ∧ o1.kind = OpKind.temp ⟨5, s2⟩ ∧
      execOp ⟨5, s2⟩ = some o2 ∧ o2.kind = OpKind.temp ⟨5, s2⟩) ∧
    (vccDef (Definition.ofTemp ⟨6, ⟨RegType.sgpr, 4⟩⟩) = none ∧
      execDef (Definition.ofTemp ⟨6, ⟨RegType.sgpr, 4⟩⟩) = none ∧
      hint_vcc (Definition.ofTemp ⟨6, ⟨RegType.sgpr, 4⟩⟩) = none ∧
      hint_exec (Definition.ofTemp ⟨6, ⟨RegType.sgpr, 4⟩⟩) = none) ∧
    (∃ d1 d2 d3 d4, vccDef (Definition.ofTemp ⟨7, s1⟩) = some d1 ∧
      d1.temp = (⟨7, s1⟩ : Temp) ∧
      execDef (Definition.ofTemp ⟨7, s1⟩) = some d2 ∧ d2.temp = (⟨7, s1⟩ : Temp) ∧
      hint_vcc (Definition.ofTemp ⟨7, s1⟩) = some d3 ∧ d3.temp = (⟨7, s1⟩ : Temp) ∧
      hint_exec (Definition.ofTemp ⟨7, s1⟩) = some d4 ∧
      d4.temp = (⟨7, s1⟩ : Temp)) :=
  ⟨(fixed_reg_binding ⟨5, v1⟩ (Definition.ofTemp ⟨6, ⟨RegType.sgpr, 4⟩⟩)).1 (Or.inl rfl),
   (fixed_reg_binding ⟨5, s2⟩ (Definition.ofTemp ⟨6, ⟨RegType.sgpr, 4⟩⟩)).2.1
     ⟨rfl, by decide⟩,
   (fixed_reg_binding ⟨5, v1⟩ (Definition.ofTemp ⟨6, ⟨RegType.sgpr, 4⟩⟩)).2.2.1
     (Or.inr (by decide)),
   (fixed_reg_binding ⟨5, v1⟩ (Definition.ofTemp ⟨7, s1⟩)).2.2.2 ⟨rfl, by decide⟩⟩

/-! ## Claim C4: vadd32 with carry-in -/

/-- C4: any vadd32 call with a defined carry-in operand emits the
carry-consuming add opcode, with its carry definition hinted to vcc,
independent of generation tier and of the carry-out request.  The lane-mask
classes are scalar (`hlm`), so the hint_vcc assertion inside vadd32 holds. -/
theorem vadd32_carry_in_selects_addc (st : BState) (dst : Definition)
    (a0 b0 : Operand) (carry_out : Bool) (carry_in : Operand) (post_ra : Bool)
    (h : carry_in.isUndefined = false) :
    (vadd32 st dst a0 b0 carry_out carry_in post_ra).1.opcode =
        aco_opcode.v_addc_co_u32 ∧
    (vadd32 st dst a0 b0 carry_out carry_in post_ra).1.definitions.length = 2 ∧
    ((vadd32 st dst a0 b0 carry_out carry_in post_ra).1.definitions.getD 1
        default).hint = some PhysReg.vcc := by
  unfold vadd32
  by_cases hb : ((if ¬ b0.isVgprTemp then (b0, a0) else (a0, b0)).2.hasRegClass = false) ∨
      (if ¬ b0.isVgprTemp then (b0, a0) else (a0, b0)).2.regTypeO = some RegType.sgpr <;>
    by_cases hp : post_ra <;>
    simp [h, hb, hp, BState.defOf, BState.allocTmp, BState.emitF, BState.insertInstr,
      copy, applyFlags, Definition.setHintReg]

/-- Witness for C4 at a concrete call. -/
theorem vadd32_carry_in_selects_addc_witness :
    (vadd32 ⟨⟨10, 64, s2⟩, 9, [], false, false⟩ (Definition.ofTemp ⟨2, v1⟩)
        (Operand.ofTemp ⟨3, v1⟩) (Operand.ofTemp ⟨4, v1⟩) false
        (Operand.ofTemp ⟨5, s2⟩) false).1.opcode = aco_opcode.v_addc_co_u32 ∧
    (vadd32 ⟨⟨10, 64, s2⟩, 9, [], false, false⟩ (Definition.ofTemp ⟨2, v1⟩)
        (Operand.ofTemp ⟨3, v1⟩) (Operand.ofTemp ⟨4, v1⟩) false
        (Operand.ofTemp ⟨5, s2⟩) false).1.definitions.length = 2 ∧
    ((vadd32 ⟨⟨10, 64, s2⟩, 9, [], false, false⟩ (Definition.ofTemp ⟨2, v1⟩)
        (Operand.ofTemp ⟨3, v1⟩) (Operand.ofTemp ⟨4, v1⟩) false
        (Operand.ofTemp ⟨5, s2⟩) false).1.definitions.getD 1 default).hint =
      some PhysReg.vcc :=
  vadd32_carry_in_selects_addc _ _ _ _ _ _ _ (by decide)

/-! ## Claim C5: vsub32 with borrow-in -/

/-- C5: any vsub32 call with a defined borrow-in operand produces a
carry-out definition (a second definition hinted to vcc), even when the
caller passed carry_out = false. -/
theorem vsub32_borrow_forces_carry (st : BState) (dst : Definition)
    (a0 b0 : Operand) (carry_out0 : Bool) (borrow : Operand)
    (h : borrow.isUndefined = false) :
    (vsub32 st dst a0 b0 carry_out0 borrow).1.definitions.length = 2 ∧
    ((vsub32 st dst a0 b0 carry_out0 borrow).1.definitions.getD 1
        default).hint = some PhysReg.vcc := by
  unfold vsub32
  by_cases hb : ((if (! b0.isVgprTemp) then (b0, a0) else (a0, b0)).2.hasRegClass = false) ∨
      (if (! b0.isVgprTemp) then (b0, a0) else (a0, b0)).2.regTypeO = some RegType.sgpr <;>
    by_cases hr : b0.isVgprTemp <;>
    simp [h, hb, hr, BState.defOf, BState.allocTmp, BState.insertInstr,
      BState.emitF, copy, applyFlags, Definition.setHintReg]

/-- Witness for C5 at a concrete call. -/
theorem vsub32_borrow_forces_carry_witness :
    (vsub32 ⟨⟨10, 64, s2⟩, 9, [], false, false⟩ (Definition.ofTemp ⟨2, v1⟩)
        (Operand.ofTemp ⟨3, v1⟩) (Operand.ofTemp ⟨4, v1⟩) false
        (Operand.ofTemp ⟨5, s2⟩)).1.definitions.length = 2 ∧
    ((vsub32 ⟨⟨10, 64, s2⟩, 9, [], false, false⟩ (Definition.ofTemp ⟨2, v1⟩)
        (Operand.ofTemp ⟨3, v1⟩) (Operand.ofTemp ⟨4, v1⟩) false
        (Operand.ofTemp ⟨5, s2⟩)).1.definitions.getD 1 default).hint =
      some PhysReg.vcc :=
  vsub32_borrow_forces_carry _ _ _ _ _ _ (by decide)

/-! ## Claim C6: GFX10 carry-producing subtract encodings -/

/-- C6 counterexample: on GFX10, a vsub32 with a bound borrow-in emits a
carry-producing subtract (two definitions, the second hinted to vcc) in the
legacy 2-operand VOP2 encoding, not the wide 3-operand VOP3 encoding. -/
theorem vsub32_gfx10_borrow_stays_vop2 :
    (vsub32 ⟨⟨10, 64, s2⟩, 10, [], false, false⟩ (Definition.ofTemp ⟨2, v1⟩)
        (Operand.ofTemp ⟨3, v1⟩) (Operand.ofTemp ⟨4, v1⟩) false
        (Operand.ofTemp ⟨5, s2⟩)).1.definitions.length = 2 ∧
    ((vsub32 ⟨⟨10, 64, s2⟩, 10, [], false, false⟩ (Definition.ofTemp ⟨2, v1⟩)
        (Operand.ofTemp ⟨3, v1⟩) (Operand.ofTemp ⟨4, v1⟩) false
        (Operand.ofTemp ⟨5, s2⟩)).1.definitions.getD 1 default).hint =
      some PhysReg.vcc ∧
    (vsub32 ⟨⟨10, 64, s2⟩, 10, [], false, false⟩ (Definition.ofTemp ⟨2, v1⟩)
        (Operand.ofTemp ⟨3, v1⟩) (Operand.ofTemp ⟨4, v1⟩) false
        (Operand.ofTemp ⟨5, s2⟩)).1.opcode = aco_opcode.v_subb_co_u32 ∧
    (vsub32 ⟨⟨10, 64, s2⟩, 10, [], false, false⟩ (Definition.ofTemp ⟨2, v1⟩)
        (Operand.ofTemp ⟨3, v1⟩) (Operand.ofTemp ⟨4, v1⟩) false
        (Operand.ofTemp ⟨5, s2⟩)).1.format ≠ Format.VOP3 := by
  decide

/-- C6 amended: on GFX10 and later, the carry-producing subtracts with an
undefined borrow-in route through the wide 3-operand VOP3 encoding (the
e64 opcodes); the borrow-consuming forms keep the 2-operand encoding. -/
theorem vsub32_gfx10_carry_width (st : BState) (dst : Definition)
    (a0 b0 : Operand) (carry_out0 : Bool) (borrow : Operand)
    (h10 : st.program.chip_class ≥ GFX10) (hb : borrow.isUndefined = true)
    (hc : carry_out0 = true) :
    (vsub32 st dst a0 b0 carry_out0 borrow).1.format = Format.VOP3 ∧
    ((vsub32 st dst a0 b0 carry_out0 borrow).1.opcode =
        aco_opcode.v_sub_co_u32_e64 ∨
      (vsub32 st dst a0 b0 carry_out0 borrow).1.opcode =
        aco_opcode.v_subrev_co_u32_e64) ∧
    (vsub32 st dst a0 b0 carry_out0 borrow).1.definitions.length = 2 := by
  have h9 : ¬ st.program.chip_class < GFX9 := by
    simp only [GFX9, GFX10] at *
    omega
  unfold vsub32
  by_cases hr : b0.isVgprTemp
  · by_cases hq : b0.hasRegClass = false ∨ b0.regTypeO = some RegType.sgpr <;>
      simp [hb, hc, h9, h10, hr, hq, BState.defOf, BState.allocTmp,
        BState.insertInstr, BState.emitF, copy, applyFlags, Definition.setHintReg]
  · by_cases hq : a0.hasRegClass = false ∨ a0.regTypeO = some RegType.sgpr <;>
      simp [hb, hc, h9, h10, hr, hq, BState.defOf, BState.allocTmp,
        BState.insertInstr, BState.emitF, copy, applyFlags, Definition.setHintReg]

/-- Witness for the amended C6 at a concrete call. -/
theorem vsub32_gfx10_carry_width_witness :
    (vsub32 ⟨⟨10, 64, s2⟩, 9, [], false, false⟩ (Definition.ofTemp ⟨2, v1⟩)
        (Operand.ofTemp ⟨3, v1⟩) (Operand.ofTemp ⟨4, v1⟩) true
        (Operand.undefRC s2)).1.format = Format.VOP3 ∧
    ((vsub32 ⟨⟨10, 64, s2⟩, 9, [], false, false⟩ (Definition.ofTemp ⟨2, v1⟩)
        (Operand.ofTemp ⟨3, v1⟩) (Operand.ofTemp ⟨4, v1⟩) true
        (Operand.undefRC s2)).1.opcode = aco_opcode.v_sub_co_u32_e64 ∨
      (vsub32 ⟨⟨10, 64, s2⟩, 9, [], false, false⟩ (Definition.ofTemp ⟨2, v1⟩)
        (Operand.ofTemp ⟨3, v1⟩) (Operand.ofTemp ⟨4, v1⟩) true
        (Operand.undefRC s2)).1.opcode = aco_opcode.v_subrev_co_u32_e64) ∧
    (vsub32 ⟨⟨10, 64, s2⟩, 9, [], false, false⟩ (Definition.ofTemp ⟨2, v1⟩)
        (Operand.ofTemp ⟨3, v1⟩) (Operand.ofTemp ⟨4, v1⟩) true
        (Operand.undefRC s2)).1.definitions.length = 2 :=
  vsub32_gfx10_carry_width _ _ _ _ _ _ (by decide) (by decide) rfl

/-! ## Claim C10: pre-GFX9 vsub32 always produces carry-out -/

/-- C10: on generation tiers before GFX9, every vsub32 call yields a
carry-out definition hinted to vcc, even without a carry-out request or
borrow-in; the plain no-carry subtract opcodes are never selected there. -/
theorem vsub32_pre_gfx9_always_carry (st : BState) (dst : Definition)
    (a0 b0 : Operand) (carry_out0 : Bool) (borrow : Operand)
    (h9 : st.program.chip_class < GFX9) :
    (vsub32 st dst a0 b0 carry_out0 borrow).1.definitions.length = 2 ∧
    ((vsub32 st dst a0 b0 carry_out0 borrow).1.definitions.getD 1
        default).hint = some PhysReg.vcc ∧
    (vsub32 st dst a0 b0 carry_out0 borrow).1.opcode ≠ aco_opcode.v_sub_u32 ∧
    (vsub32 st dst a0 b0 carry_out0 borrow).1.opcode ≠
      aco_opcode.v_subrev_u32 := by
  have h10 : ¬ st.program.chip_class ≥ GFX10 := by
    simp only [GFX9, GFX10] at *
    omega
  unfold vsub32
  by_cases hr : b0.isVgprTemp
  · by_cases hq : b0.hasRegClass = false ∨ b0.regTypeO = some RegType.sgpr <;>
      by_cases hu : borrow.isUndefined <;>
      simp [hu, h9, h10, hr, hq, BState.defOf, BState.allocTmp,
        BState.insertInstr, BState.emitF, copy, applyFlags, Definition.setHintReg]
  · by_cases hq : a0.hasRegClass = false ∨ a0.regTypeO = some RegType.sgpr <;>
      by_cases hu : borrow.isUndefined <;>
      simp [hu, h9, h10, hr, hq, BState.defOf, BState.allocTmp,
        BState.insertInstr, BState.emitF, copy, applyFlags, Definition.setHintReg]

/-- Witness for C10 at a concrete call. -/
theorem vsub32_pre_gfx9_always_carry_witness :
    (vsub32 ⟨⟨8, 64, s2⟩, 9, [], false, false⟩ (Definition.ofTemp ⟨2, v1⟩)
        (Operand.ofTemp ⟨3, v1⟩) (Operand.ofTemp ⟨4, v1⟩) false
        (Operand.undefRC s2)).1.definitions.length = 2 ∧
    ((vsub32 ⟨⟨8, 64, s2⟩, 9, [], false, false⟩ (Definition.ofTemp ⟨2, v1⟩)
        (Operand.ofTemp ⟨3, v1⟩) (Operand.ofTemp ⟨4, v1⟩) false
        (Operand.undefRC s2)).1.definitions.getD 1 default).hint =
      some PhysReg.vcc ∧
    (vsub32 ⟨⟨8, 64, s2⟩, 9, [], false, false⟩ (Definition.ofTemp ⟨2, v1⟩)
        (Operand.ofTemp ⟨3, v1⟩) (Operand.ofTemp ⟨4, v1⟩) false
        (Operand.undefRC s2)).1.opcode ≠ aco_opcode.v_sub_u32 ∧
    (vsub32 ⟨⟨8, 64, s2⟩, 9, [], false, false⟩ (Definition.ofTemp ⟨2, v1⟩)
        (Operand.ofTemp ⟨3, v1⟩) (Operand.ofTemp ⟨4, v1⟩) false
        (Operand.undefRC s2)).1.opcode ≠ aco_opcode.v_subrev_u32 :=
  vsub32_pre_gfx9_always_carry _ _ _ _ _ _ (by decide)

/-! ## Evaluation and emission infrastructure lemmas -/

theorem applyFlags_temp (st : BState) (d : Definition) :
    (applyFlags st d).temp = d.temp := rfl

theorem evalList_append (l1 l2 : List Instruction) (env : Nat → Nat) :
    evalList (l1 ++ l2) env = evalList l2 (evalList l1 env) := by
  induction l1 generalizing env with
  | nil => rfl
  | cons i l ih => simp [evalList, ih]

theorem countWrites_append (l1 l2 : List Instruction) (id : Nat) :
    countWrites (l1 ++ l2) id = countWrites l1 id + countWrites l2 id := by
  simp [countWrites, List.filter_append]

theorem countWrites_single (i : Instruction) (id : Nat) :
    countWrites [i] id = if writesId i id then 1 else 0 := by
  by_cases h : writesId i id <;> simp [countWrites, h]

theorem updEnv_one (env : Nat → Nat) (d : Definition) (x j : Nat) :
    updEnv env [d] [x] j = if j = d.temp.id then x else env j := rfl

theorem updEnv_two (env : Nat → Nat) (d1 d2 : Definition) (x y j : Nat) :
    updEnv env [d1, d2] [x, y] j =
      if j = d2.temp.id then y else if j = d1.temp.id then x else env j := rfl

theorem evalInstr_copy (env : Nat → Nat) (fmt : Format) (o : Operand)
    (d : Definition) (j : Nat) :
    evalInstr env ⟨aco_opcode.p_parallelcopy, fmt, [o], [d]⟩ j =
      if j = d.temp.id then oval env o else env j := rfl

theorem evalInstr_lshl (env : Nat → Nat) (fmt : Format) (k : Nat) (ts : Temp)
    (d : Definition) (j : Nat) :
    evalInstr env ⟨aco_opcode.v_lshlrev_b32, fmt,
        [Operand.ofConst k, Operand.ofTemp ts], [d]⟩ j =
      if j = d.temp.id then ((env ts.id <<< (k % 32)) % W) else env j := rfl

theorem evalInstr_addco (env : Nat → Nat) (a b : Operand) (d1 d2 : Definition)
    (j : Nat) :
    evalInstr env ⟨aco_opcode.v_add_co_u32, Format.VOP2, [a, b], [d1, d2]⟩ j =
      if j = d2.temp.id then (oval env a + oval env b) / W
      else if j = d1.temp.id then (oval env a + oval env b) % W
      else env j := rfl

theorem evalInstr_addu (env : Nat → Nat) (a b : Operand) (d1 : Definition)
    (j : Nat) :
    evalInstr env ⟨aco_opcode.v_add_u32, Format.VOP2, [a, b], [d1]⟩ j =
      if j = d1.temp.id then (oval env a + oval env b) % W
      else env j := rfl

theorem evalInstr_subco (env : Nat → Nat) (a b : Operand) (d1 d2 : Definition)
    (j : Nat) :
    evalInstr env ⟨aco_opcode.v_sub_co_u32, Format.VOP2, [a, b], [d1, d2]⟩ j =
      if j = d2.temp.id then (if oval env a % W < oval env b % W then 1 else 0)
      else if j = d1.temp.id then sub32 (oval env a) (oval env b)
      else env j := rfl

theorem evalInstr_subu (env : Nat → Nat) (a b : Operand) (d1 : Definition)
    (j : Nat) :
    evalInstr env ⟨aco_opcode.v_sub_u32, Format.VOP2, [a, b], [d1]⟩ j =
      if j = d1.temp.id then sub32 (oval env a) (oval env b)
      else env j := rfl

theorem evalInstr_mullo (env : Nat → Nat) (a b : Operand) (d1 : Definition)
    (j : Nat) :
    evalInstr env ⟨aco_opcode.v_mul_lo_u32, Format.VOP3, [a, b], [d1]⟩ j =
      if j = d1.temp.id then (oval env a * oval env b) % W
      else env j := rfl

theorem oval_const (env : Nat → Nat) (v : Nat) : oval env (Operand.ofConst v) = v := rfl

theorem oval_temp (env : Nat → Nat) (t : Temp) : oval env (Operand.ofTemp t) = env t.id := rfl

theorem ffs_pow2 (k : Nat) (hk : k < 32) : ffs (2 ^ k) - 1 = k := by
  have hnz : (2 : Nat) ^ k ≠ 0 := by positivity
  simp [ffs, hnz, ctz_two_pow k hk]

/-! ## Exact shapes of vadd32 and vsub32 in loop position

When the second addend is a vector-domain Temp, the carry-in is undefined
and carry-out is not requested (the only way v_mul_imm calls them), vadd32
and vsub32 emit exactly one instruction whose shape depends only on the
generation tier. -/

theorem vadd32_lt9 (st : BState) (dst : Definition) (a : Operand) (tb : Temp)
    (hb : tb.rc.type = RegType.vgpr) (h9 : st.program.chip_class < GFX9) :
    vadd32 st dst a (Operand.ofTemp tb) false (Operand.undefRC s2) false =
      (⟨aco_opcode.v_add_co_u32, Format.VOP2, [a, Operand.ofTemp tb],
        [applyFlags st dst, applyFlags st ((Definition.ofTemp
          ⟨st.nextId, st.program.lane_mask⟩).setHintReg PhysReg.vcc)]⟩,
       { st with nextId := st.nextId + 1,
                 emitted := st.emitted ++ [⟨aco_opcode.v_add_co_u32, Format.VOP2,
                   [a, Operand.ofTemp tb],
                   [applyFlags st dst, applyFlags st ((Definition.ofTemp
                     ⟨st.nextId, st.program.lane_mask⟩).setHintReg PhysReg.vcc)]⟩] }) := by
  unfold vadd32
  simp [hb, h9, BState.defOf, BState.allocTmp, BState.emitF, BState.insertInstr,
    applyFlags, Operand.isVgprTemp, Operand.hasRegClass, Operand.isTemp,
    Operand.isUndefined, Operand.regTypeO, Operand.regClassO, Operand.ofTemp,
    Operand.undefRC, Definition.ofTemp]

theorem vadd32_ge9 (st : BState) (dst : Definition) (a : Operand) (tb : Temp)
    (hb : tb.rc.type = RegType.vgpr) (h9 : ¬ st.program.chip_class < GFX9) :
    vadd32 st dst a (Operand.ofTemp tb) false (Operand.undefRC s2) false =
      (⟨aco_opcode.v_add_u32, Format.VOP2, [a, Operand.ofTemp tb],
        [applyFlags st dst]⟩,
       { st with emitted := st.emitted ++ [⟨aco_opcode.v_add_u32, Format.VOP2,
         [a, Operand.ofTemp tb], [applyFlags st dst]⟩] }) := by
  unfold vadd32
  simp [hb, h9, BState.defOf, BState.allocTmp, BState.emitF, BState.insertInstr,
    applyFlags, Operand.isVgprTemp, Operand.hasRegClass, Operand.isTemp,
    Operand.isUndefined, Operand.regTypeO, Operand.regClassO, Operand.ofTemp,
    Operand.undefRC, Definition.ofTemp]

theorem vsub32_lt9_simple (st : BState) (dst : Definition) (a : Operand) (tb : Temp)
    (hb : tb.rc.type = RegType.vgpr) (h9 : st.program.chip_class < GFX9) :
    vsub32 st dst a (Operand.ofTemp tb) false (Operand.undefRC s2) =
      (⟨aco_opcode.v_sub_co_u32, Format.VOP2, [a, Operand.ofTemp tb],
        [dst, (Definition.ofTemp ⟨st.nextId, s2⟩).setHintReg PhysReg.vcc]⟩,
       { st with nextId := st.nextId + 1,
                 emitted := st.emitted ++ [⟨aco_opcode.v_sub_co_u32, Format.VOP2,
                   [a, Operand.ofTemp tb],
                   [dst, (Definition.ofTemp ⟨st.nextId, s2⟩).setHintReg
                     PhysReg.vcc]⟩] }) := by
  have h10 : ¬ st.program.chip_class ≥ GFX10 := by
    simp only [GFX9, GFX10] at *
    omega
  unfold vsub32
  simp [hb, h9, h10, BState.defOf, BState.allocTmp, BState.insertInstr,
    Operand.isVgprTemp, Operand.hasRegClass, Operand.isTemp, Operand.isUndefined,
    Operand.regTypeO, Operand.regClassO, Operand.ofTemp, Operand.undefRC,
    Definition.ofTemp]

theorem vsub32_ge9_simple (st : BState) (dst : Definition) (a : Operand) (tb : Temp)
    (hb : tb.rc.type = RegType.vgpr) (h9 : ¬ st.program.chip_class < GFX9) :
    vsub32 st dst a (Operand.ofTemp tb) false (Operand.undefRC s2) =
      (⟨aco_opcode.v_sub_u32, Format.VOP2, [a, Operand.ofTemp tb], [dst]⟩,
       { st with emitted := st.emitted ++ [⟨aco_opcode.v_sub_u32, Format.VOP2,
         [a, Operand.ofTemp tb], [dst]⟩] }) := by
  unfold vsub32
  simp [hb, h9, BState.defOf, BState.allocTmp, BState.insertInstr,
    Operand.isVgprTemp, Operand.hasRegClass, Operand.isTemp, Operand.isUndefined,
    Operand.regTypeO, Operand.regClassO, Operand.ofTemp, Operand.undefRC,
    Definition.ofTemp]

theorem writesId_eq_false (i : Instruction) (id : Nat)
    (h : ∀ d ∈ i.definitions, d.temp.id ≠ id) : writesId i id = false := by
  rw [writesId, List.any_eq_false]
  intro d hd
  simpa using h d hd

theorem countWrites_single_of_not (i : Instruction) (id : Nat)
    (h : writesId i id = false) : countWrites [i] id = 0 := by
  simp [countWrites, h]

theorem shl_mod_eq (v k : Nat) (hk : k < 32) :
    (v <<< (k % 32)) % W = v * 2 ^ k % W := by
  rw [Nat.mod_eq_of_lt hk, Nat.shiftLeft_eq]

/-- Shape of the single add instruction vadd32 emits when the second addend
is a vector-domain Temp, the carry-in is undefined and no carry-out is
requested (the only way the v_mul_imm decomposition calls it): one
instruction, writing the destination and possibly a fresh carry Temp. -/
theorem vadd32_loop_shape (st : BState) (dstd : Definition) (a : Operand) (tb : Temp)
    (hb : tb.rc.type = RegType.vgpr) (hne : dstd.temp.id ≠ st.nextId) :
    ∃ (I : Instruction) (kk : Nat),
      vadd32 st dstd a (Operand.ofTemp tb) false (Operand.undefRC s2) false =
        (I, { st with nextId := st.nextId + kk, emitted := st.emitted ++ [I] }) ∧
      kk ≤ 1 ∧
      (I.opcode = aco_opcode.v_add_co_u32 ∨ I.opcode = aco_opcode.v_add_u32) ∧
      (I.definitions.getD 0 default).temp.id = dstd.temp.id ∧
      writesId I dstd.temp.id = true ∧
      (∀ d ∈ I.definitions, d.temp.id = dstd.temp.id ∨ d.temp.id = st.nextId) ∧
      (∀ (env : Nat → Nat) (j : Nat), j ≠ st.nextId →
        evalInstr env I j =
          if j = dstd.temp.id then (oval env a + env tb.id) % W else env j) := by
  rcases Nat.lt_or_ge st.program.chip_class GFX9 with h9 | h9
  · refine ⟨⟨aco_opcode.v_add_co_u32, Format.VOP2, [a, Operand.ofTemp tb],
      [applyFlags st dstd, applyFlags st ((Definition.ofTemp
        ⟨st.nextId, st.program.lane_mask⟩).setHintReg PhysReg.vcc)]⟩, 1,
      vadd32_lt9 st dstd a tb hb h9, by omega, Or.inl rfl, rfl, ?_, ?_, ?_⟩
    · simp [writesId, applyFlags]
    · intro d hd
      simp only [List.mem_cons, List.not_mem_nil, or_false] at hd
      rcases hd with hd | hd
      · left
        rw [hd]
        rfl
      · right
        rw [hd]
        rfl
    · intro env j hj
      rw [evalInstr_addco]
      simp [applyFlags, Definition.setHintReg, Definition.ofTemp, oval_temp, hj]
  · refine ⟨⟨aco_opcode.v_add_u32, Format.VOP2, [a, Operand.ofTemp tb],
      [applyFlags st dstd]⟩, 0, ?_, by omega, Or.inr rfl, rfl, ?_, ?_, ?_⟩
    · rw [vadd32_ge9 st dstd a tb hb (by omega)]
      simp
    · simp [writesId, applyFlags]
    · intro d hd
      simp only [List.mem_cons, List.not_mem_nil, or_false] at hd
      left
      rw [hd]
      rfl
    · intro env j hj
      rw [evalInstr_addu]
      simp only [applyFlags, oval_temp]




set_option maxHeartbeats 1000000

theorem Definition_ofTemp_temp (t : Temp) : (Definition.ofTemp t).temp = t := rfl

theorem Temp_mk_id (n : Nat) (rc : RegClass) : (⟨n, rc⟩ : Temp).id = n := rfl

theorem mulLoop_spec (dst : Definition) (t : Temp)
    (ht : t.rc.type = RegType.vgpr) (ht0 : t.id ≠ 0) :
    ∀ imm, imm ≠ 0 → imm < W →
    ∀ (cur : Temp) (res : Option Instruction) (st : BState) (v c : Nat),
    v < W → c < W → cur.rc.type = RegType.vgpr →
    t.id < st.nextId → dst.temp.id < st.nextId → cur.id < st.nextId →
    (cur.id = 0 → imm ≠ 1) →
    ∃ Δ pre lastI,
      (mulLoop dst t imm cur res st).2.emitted = st.emitted ++ Δ ∧
      (mulLoop dst t imm cur res st).1 = some lastI ∧
      Δ = pre ++ [lastI] ∧
      (lastI.definitions.getD 0 default).temp.id = dst.temp.id ∧
      (∀ i ∈ Δ, i.opcode = aco_opcode.v_lshlrev_b32 ∨
        i.opcode = aco_opcode.v_add_co_u32 ∨ i.opcode = aco_opcode.v_add_u32) ∧
      countWrites Δ dst.temp.id = 1 ∧
      (∀ env : Nat → Nat, env t.id = v → (cur.id ≠ 0 → env cur.id = c) →
        evalList Δ env dst.temp.id = ((if cur.id = 0 then 0 else c) + v * imm) % W ∧
        (∀ j, j < st.nextId → j ≠ dst.temp.id → evalList Δ env j = env j)) := by
  intro imm
  induction imm using Nat.strong_induction_on with
  | _ imm ih =>
  intro himm0 himmW cur res st v c hv hc hcty htn hdn hcn hcur1
  have hk32 : ctz imm < 32 := ctz_lt_32 imm (by omega) himmW
  have hKle : 2 ^ ctz imm ≤ imm := two_pow_ctz_le imm (by omega) himmW
  have hKpos : 0 < 2 ^ ctz imm := Nat.pos_pow_of_pos _ (by omega)
  have hvmul : v * imm = v * 2 ^ ctz imm + v * (imm - 2 ^ ctz imm) := by
    calc v * imm = v * (2 ^ ctz imm + (imm - 2 ^ ctz imm)) := by
          congr 1
          omega
    _ = v * 2 ^ ctz imm + v * (imm - 2 ^ ctz imm) := by ring
  by_cases himm2 : imm - 2 ^ ctz imm = 0
  · -- final iteration: imm = 2 ^ ctz imm
    have himmpow : imm = 2 ^ ctz imm := by omega
    by_cases hk0 : ctz imm = 0
    · by_cases hcur0 : cur.id = 0
      · -- A4: impossible, imm = 1
        exfalso
        apply hcur1 hcur0
        rw [himmpow, hk0, pow_zero]
      · -- A3: single add into dst
        obtain ⟨I, kk, heq, hkk, hops, hgetd, hwrites, hdefs, heval⟩ :=
          vadd32_loop_shape st dst (Operand.ofTemp t) cur hcty (by omega)
        have himm2x : imm - 1 = 0 := by
          rw [hk0, pow_zero] at himm2
          exact himm2
        have hstep : mulLoop dst t imm cur res st =
            (some I, { st with nextId := st.nextId + kk,
                               emitted := st.emitted ++ [I] }) := by
          rw [mulLoop, dif_neg himm0, u_bit_scan_eq imm (by omega) himmW, hk0]
          simp only [pow_zero, himm2x, hcur0, ne_eq, not_true_eq_false,
            not_false_iff, false_and, and_false, if_false, if_true]
          rw [heq]
          rw [mulLoop]
          simp
        rw [hstep]
        refine ⟨[I], [], I, rfl, rfl, rfl, hgetd, ?_, ?_, ?_⟩
        · intro i hi
          simp only [List.mem_singleton] at hi
          rw [hi]
          rcases hops with h | h
          · exact Or.inr (Or.inl h)
          · exact Or.inr (Or.inr h)
        · rw [countWrites_single, if_pos hwrites]
        · intro env henvt henvc
          have hval := heval env dst.temp.id (by omega)
          have hcval := henvc hcur0
          constructor
          · simp only [evalList]
            rw [hval, if_pos rfl, oval_temp, henvt, hcval]
            rw [himmpow, hk0, pow_zero]
            rw [if_neg hcur0]
            rw [Nat.mul_one, Nat.add_comm]
          · intro j hj hjne
            simp only [evalList]
            rw [heval env j (by omega), if_neg hjne]
    · by_cases hcur0 : cur.id = 0
      · -- A2: single shift into dst
        have hstep : mulLoop dst t imm cur res st =
            (some (⟨aco_opcode.v_lshlrev_b32, Format.VOP2,
                [Operand.ofConst (ctz imm), Operand.ofTemp t], [applyFlags st dst]⟩),
             { st with emitted := st.emitted ++ [⟨aco_opcode.v_lshlrev_b32, Format.VOP2,
                [Operand.ofConst (ctz imm), Operand.ofTemp t], [applyFlags st dst]⟩] }) := by
          rw [mulLoop, dif_neg himm0, u_bit_scan_eq imm (by omega) himmW]
          simp only [himm2, hk0, hcur0, ne_eq, not_true_eq_false, not_false_iff,
            and_false, false_and, if_false, if_true]
          rw [mulLoop]
          simp [BState.emitF, BState.insertInstr, hk0, hcur0]
        rw [hstep]
        refine ⟨[⟨aco_opcode.v_lshlrev_b32, Format.VOP2,
            [Operand.ofConst (ctz imm), Operand.ofTemp t], [applyFlags st dst]⟩], [],
          ⟨aco_opcode.v_lshlrev_b32, Format.VOP2,
            [Operand.ofConst (ctz imm), Operand.ofTemp t], [applyFlags st dst]⟩,
          rfl, rfl, rfl, rfl, ?_, ?_, ?_⟩
        · intro i hi
          simp only [List.mem_singleton] at hi
          rw [hi]
          exact Or.inl rfl
        · rw [countWrites_single, if_pos]
          simp [writesId, applyFlags]
        · intro env henvt henvc
          constructor
          · simp only [evalList, evalInstr_lshl]
            rw [applyFlags_temp]
            rw [if_pos rfl, henvt, shl_mod_eq v (ctz imm) hk32, hcur0]
            rw [if_pos rfl]
            rw [← himmpow]
            simp
          · intro j hj hjne
            simp only [evalList, evalInstr_lshl]
            rw [applyFlags_temp, if_neg hjne]
      · -- A1: shift to fresh, add into dst
        obtain ⟨I, kk, heq, hkk, hops, hgetd, hwrites, hdefs, heval⟩ :=
          vadd32_loop_shape
            { st with nextId := st.nextId + 1,
                      emitted := st.emitted ++ [⟨aco_opcode.v_lshlrev_b32, Format.VOP2,
                        [Operand.ofConst (ctz imm), Operand.ofTemp t],
                        [applyFlags { st with nextId := st.nextId + 1 }
                          (Definition.ofTemp ⟨st.nextId, v1⟩)]⟩] }
            dst (Operand.ofTemp (⟨st.nextId, v1⟩ : Temp)) cur hcty
            (by omega : dst.temp.id ≠ st.nextId + 1)
        have hstep : mulLoop dst t imm cur res st =
            (some I, { st with nextId := st.nextId + 1 + kk,
                               emitted := (st.emitted ++ [⟨aco_opcode.v_lshlrev_b32,
                                 Format.VOP2,
                                 [Operand.ofConst (ctz imm), Operand.ofTemp t],
                                 [applyFlags { st with nextId := st.nextId + 1 }
                                   (Definition.ofTemp ⟨st.nextId, v1⟩)]⟩]) ++ [I] }) := by
          rw [mulLoop, dif_neg himm0, u_bit_scan_eq imm (by omega) himmW]
          simp only [himm2, hk0, hcur0, ne_eq, not_true_eq_false, not_false_iff,
            and_self, if_false, if_true, BState.defOf, BState.allocTmp,
            BState.emitF, BState.insertInstr, Instruction.resultTemp,
            List.map_cons, List.map_nil, List.getD_cons_zero, applyFlags_temp,
            Definition_ofTemp_temp]
          rw [heq]
          rw [mulLoop]
          simp
        rw [hstep]
        refine ⟨[⟨aco_opcode.v_lshlrev_b32, Format.VOP2,
            [Operand.ofConst (ctz imm), Operand.ofTemp t],
            [applyFlags { st with nextId := st.nextId + 1 }
              (Definition.ofTemp ⟨st.nextId, v1⟩)]⟩, I],
          [⟨aco_opcode.v_lshlrev_b32, Format.VOP2,
            [Operand.ofConst (ctz imm), Operand.ofTemp t],
            [applyFlags { st with nextId := st.nextId + 1 }
              (Definition.ofTemp ⟨st.nextId, v1⟩)]⟩], I,
          by simp, rfl, rfl, hgetd, ?_, ?_, ?_⟩
        · intro i hi
          simp only [List.mem_cons, List.mem_singleton, List.not_mem_nil, or_false] at hi
          rcases hi with hi | hi
          · rw [hi]
            exact Or.inl rfl
          · rw [hi]
            rcases hops with h | h
            · exact Or.inr (Or.inl h)
            · exact Or.inr (Or.inr h)
        · have h1 : countWrites [(⟨aco_opcode.v_lshlrev_b32, Format.VOP2,
              [Operand.ofConst (ctz imm), Operand.ofTemp t],
              [applyFlags { st with nextId := st.nextId + 1 }
                (Definition.ofTemp ⟨st.nextId, v1⟩)]⟩ : Instruction)] dst.temp.id = 0 := by
            apply countWrites_single_of_not
            apply writesId_eq_false
            intro d hd
            simp only [List.mem_singleton] at hd
            rw [hd, applyFlags_temp, Definition_ofTemp_temp, Temp_mk_id]
            omega
          have h2 : countWrites [I] dst.temp.id = 1 := by
            rw [countWrites_single, if_pos hwrites]
          calc countWrites _ dst.temp.id = _ + _ :=
            countWrites_append [_] [I] dst.temp.id
          _ = 1 := by rw [h1, h2]
        · intro env henvt henvc
          have hvm : v * imm = v * 2 ^ ctz imm := by
            rw [hvmul, himm2]
            ring
          have hcval := henvc hcur0
          have henv1 : ∀ j, evalInstr env (⟨aco_opcode.v_lshlrev_b32, Format.VOP2,
              [Operand.ofConst (ctz imm), Operand.ofTemp t],
              [applyFlags { st with nextId := st.nextId + 1 }
                (Definition.ofTemp ⟨st.nextId, v1⟩)]⟩ : Instruction) j =
              if j = st.nextId then (v * 2 ^ ctz imm) % W else env j := by
            intro j
            rw [evalInstr_lshl, applyFlags_temp, Definition_ofTemp_temp]
            rw [henvt, shl_mod_eq v (ctz imm) hk32]
          constructor
          · simp only [evalList]
            rw [heval _ dst.temp.id (show dst.temp.id ≠ st.nextId + 1 by omega)]
            rw [if_pos rfl, oval_temp, henv1, if_pos rfl, henv1]
            rw [if_neg (show ¬ cur.id = st.nextId by omega), hcval, if_neg hcur0, hvm]
            simp only [W]
            omega
          · intro j hj hjne
            simp only [evalList]
            rw [heval _ j (show j ≠ st.nextId + 1 by omega), if_neg hjne, henv1,
              if_neg (show ¬ j = st.nextId by omega)]
  · -- recursive iteration: process lowest set bit, recurse on the rest
    have himm2lt : imm - 2 ^ ctz imm < imm := by omega
    have himm2W : imm - 2 ^ ctz imm < W := by omega
    have hnz2 : st.nextId ≠ 0 := by omega
    by_cases hk0 : ctz imm = 0
    · have himm2x : ¬ (imm - 1 = 0) := by
        rw [hk0, pow_zero] at himm2
        exact himm2
      have hvmul1 : v * imm = v + v * (imm - 1) := by
        have h1 := hvmul
        rw [hk0, pow_zero] at h1
        omega
      by_cases hcur0 : cur.id = 0
      · -- B4: lowest bit is bit 0, no running result: cur becomes tmp
        have hstep : mulLoop dst t imm cur res st =
            mulLoop dst t (imm - 1) t res { st with nextId := st.nextId + 1 } := by
          rw [mulLoop, dif_neg himm0, u_bit_scan_eq imm (by omega) himmW, hk0]
          simp only [pow_zero, himm2x, hcur0, ne_eq, not_true_eq_false,
            not_false_iff, false_and, and_false, if_false, if_true,
            BState.defOf, BState.allocTmp]
        obtain ⟨Δ2, pre2, last2, hem, hres, hsplit, hgetd2, hops2, hcount2, heval2⟩ :=
          ih (imm - 1) (by omega) himm2x (by omega) t res
            { st with nextId := st.nextId + 1 } v v hv hv ht
            (show t.id < st.nextId + 1 by omega)
            (show dst.temp.id < st.nextId + 1 by omega)
            (show t.id < st.nextId + 1 by omega) (fun h0 => absurd h0 ht0)
        rw [hstep]
        refine ⟨Δ2, pre2, last2, ?_, hres, hsplit, hgetd2, hops2, hcount2, ?_⟩
        · rw [hem]
        · intro env henvt henvc
          obtain ⟨hval, hpres⟩ := heval2 env henvt (fun _ => henvt)
          constructor
          · rw [hval, if_neg ht0, if_pos hcur0]
            simp only [W] at *
            omega
          · intro j hj hjne
            exact hpres j (show j < st.nextId + 1 by omega) hjne
      · -- B3: lowest bit is bit 0 with a running result: add into a fresh temp
        obtain ⟨I, kk, heq, hkk, hops, hgetd, hwrites, hdefs, heval⟩ :=
          vadd32_loop_shape { st with nextId := st.nextId + 1 }
            (Definition.ofTemp ⟨st.nextId, v1⟩) (Operand.ofTemp t) cur hcty
            (show (Definition.ofTemp (⟨st.nextId, v1⟩ : Temp)).temp.id ≠ st.nextId + 1
              by rw [Definition_ofTemp_temp, Temp_mk_id]; omega)
        have hstep : mulLoop dst t imm cur res st =
            mulLoop dst t (imm - 1) ⟨st.nextId, v1⟩ (some I)
              { st with nextId := st.nextId + 1 + kk,
                        emitted := st.emitted ++ [I] } := by
          rw [mulLoop, dif_neg himm0, u_bit_scan_eq imm (by omega) himmW, hk0]
          simp only [pow_zero, himm2x, hcur0, ne_eq, not_true_eq_false,
            not_false_iff, false_and, and_false, if_false, if_true,
            BState.defOf, BState.allocTmp]
          rw [heq]
          simp [Definition_ofTemp_temp]
        obtain ⟨Δ2, pre2, last2, hem, hres, hsplit, hgetd2, hops2, hcount2, heval2⟩ :=
          ih (imm - 1) (by omega) himm2x (by omega) (⟨st.nextId, v1⟩ : Temp) (some I)
            { st with nextId := st.nextId + 1 + kk,
                      emitted := st.emitted ++ [I] } v ((v + c) % W) hv
            (by simp only [W]; omega) rfl
            (show t.id < st.nextId + 1 + kk by omega)
            (show dst.temp.id < st.nextId + 1 + kk by omega)
            (show st.nextId < st.nextId + 1 + kk by omega)
            (fun h0 => absurd (by rwa [Temp_mk_id] at h0) hnz2)
        rw [hstep]
        refine ⟨I :: Δ2, I :: pre2, last2, ?_, hres, ?_, hgetd2, ?_, ?_, ?_⟩
        · rw [hem]
          simp
        · rw [hsplit]
          rfl
        · intro i hi
          simp only [List.mem_cons] at hi
          rcases hi with hi | hi
          · rw [hi]
            rcases hops with h | h
            · exact Or.inr (Or.inl h)
            · exact Or.inr (Or.inr h)
          · exact hops2 i hi
        · have h1 : countWrites [I] dst.temp.id = 0 := by
            apply countWrites_single_of_not
            apply writesId_eq_false
            intro d hd
            rcases hdefs d hd with h | h
            · have h2 : d.temp.id = st.nextId := h
              intro hcontra
              omega
            · have h2 : d.temp.id = st.nextId + 1 := h
              intro hcontra
              omega
          have : countWrites (I :: Δ2) dst.temp.id =
              countWrites [I] dst.temp.id + countWrites Δ2 dst.temp.id :=
            countWrites_append [I] Δ2 dst.temp.id
          rw [this, h1, hcount2]
        · intro env henvt henvc
          have hcval := henvc hcur0
          have henv1 : ∀ j, j ≠ st.nextId + 1 →
              evalInstr env I j =
                if j = st.nextId then (v + c) % W else env j := by
            intro j hj
            have h := heval env j (show j ≠ st.nextId + 1 from hj)
            rw [oval_temp, henvt, hcval] at h
            rw [h]
            rw [Definition_ofTemp_temp, Temp_mk_id]
          obtain ⟨hval, hpres⟩ := heval2 (evalInstr env I)
            (by rw [henv1 t.id (by omega), if_neg (by omega)]; exact henvt)
            (fun _ => by
              rw [Temp_mk_id, henv1 st.nextId (by omega), if_pos rfl])
          constructor
          · simp only [evalList]
            rw [hval, Temp_mk_id, if_neg (by omega : ¬ st.nextId = 0), if_neg hcur0]
            rw [hvmul1]
            simp only [W] at *
            omega
          · intro j hj hjne
            simp only [evalList]
            rw [hpres j (show j < st.nextId + 1 + kk by omega) hjne,
              henv1 j (by omega), if_neg (by omega)]
    · by_cases hcur0 : cur.id = 0
      · -- B2: shift into a fresh temp, it becomes the running result
        have hstep : mulLoop dst t imm cur res st =
            mulLoop dst t (imm - 2 ^ ctz imm) ⟨st.nextId, v1⟩
              (some ⟨aco_opcode.v_lshlrev_b32, Format.VOP2,
                [Operand.ofConst (ctz imm), Operand.ofTemp t],
                [applyFlags { st with nextId := st.nextId + 1 }
                  (Definition.ofTemp ⟨st.nextId, v1⟩)]⟩)
              { st with nextId := st.nextId + 1,
                        emitted := st.emitted ++ [⟨aco_opcode.v_lshlrev_b32,
                          Format.VOP2,
                          [Operand.ofConst (ctz imm), Operand.ofTemp t],
                          [applyFlags { st with nextId := st.nextId + 1 }
                            (Definition.ofTemp ⟨st.nextId, v1⟩)]⟩] } := by
          rw [mulLoop, dif_neg himm0, u_bit_scan_eq imm (by omega) himmW]
          simp only [himm2, hk0, hcur0, ne_eq, not_true_eq_false, not_false_iff,
            false_and, and_false, and_true, if_false, if_true,
            BState.defOf, BState.allocTmp, BState.emitF, BState.insertInstr,
            List.map_cons, List.map_nil, Definition_ofTemp_temp]
        obtain ⟨Δ2, pre2, last2, hem, hres, hsplit, hgetd2, hops2, hcount2, heval2⟩ :=
          ih (imm - 2 ^ ctz imm) (by omega) himm2 (by omega) (⟨st.nextId, v1⟩ : Temp)
            (some ⟨aco_opcode.v_lshlrev_b32, Format.VOP2,
              [Operand.ofConst (ctz imm), Operand.ofTemp t],
              [applyFlags { st with nextId := st.nextId + 1 }
                (Definition.ofTemp ⟨st.nextId, v1⟩)]⟩)
            { st with nextId := st.nextId + 1,
                      emitted := st.emitted ++ [⟨aco_opcode.v_lshlrev_b32,
                        Format.VOP2,
                        [Operand.ofConst (ctz imm), Operand.ofTemp t],
                        [applyFlags { st with nextId := st.nextId + 1 }
                          (Definition.ofTemp ⟨st.nextId, v1⟩)]⟩] }
            v ((v * 2 ^ ctz imm) % W) hv (by simp only [W]; omega) rfl
            (show t.id < st.nextId + 1 by omega)
            (show dst.temp.id < st.nextId + 1 by omega)
            (show st.nextId < st.nextId + 1 by omega)
            (fun h0 => absurd (by rwa [Temp_mk_id] at h0) hnz2)
        rw [hstep]
        refine ⟨⟨aco_opcode.v_lshlrev_b32, Format.VOP2,
            [Operand.ofConst (ctz imm), Operand.ofTemp t],
            [applyFlags { st with nextId := st.nextId + 1 }
              (Definition.ofTemp ⟨st.nextId, v1⟩)]⟩ :: Δ2,
          ⟨aco_opcode.v_lshlrev_b32, Format.VOP2,
            [Operand.ofConst (ctz imm), Operand.ofTemp t],
            [applyFlags { st with nextId := st.nextId + 1 }
              (Definition.ofTemp ⟨st.nextId, v1⟩)]⟩ :: pre2,
          last2, ?_, hres, ?_, hgetd2, ?_, ?_, ?_⟩
        · rw [hem]
          simp
        · rw [hsplit]
          rfl
        · intro i hi
          simp only [List.mem_cons] at hi
          rcases hi with hi | hi
          · rw [hi]
            exact Or.inl rfl
          · exact hops2 i hi
        · have h1 : countWrites [(⟨aco_opcode.v_lshlrev_b32, Format.VOP2,
              [Operand.ofConst (ctz imm), Operand.ofTemp t],
              [applyFlags { st with nextId := st.nextId + 1 }
                (Definition.ofTemp ⟨st.nextId, v1⟩)]⟩ : Instruction)]
              dst.temp.id = 0 := by
            apply countWrites_single_of_not
            apply writesId_eq_false
            intro d hd
            simp only [List.mem_singleton] at hd
            rw [hd, applyFlags_temp, Definition_ofTemp_temp]
            intro hcontra
            have h3 : st.nextId = dst.temp.id := hcontra
            omega
          have hca : countWrites ((⟨aco_opcode.v_lshlrev_b32, Format.VOP2,
              [Operand.ofConst (ctz imm), Operand.ofTemp t],
              [applyFlags { st with nextId := st.nextId + 1 }
                (Definition.ofTemp ⟨st.nextId, v1⟩)]⟩ : Instruction) :: Δ2)
                dst.temp.id =
              countWrites [(⟨aco_opcode.v_lshlrev_b32, Format.VOP2,
                [Operand.ofConst (ctz imm), Operand.ofTemp t],
                [applyFlags { st with nextId := st.nextId + 1 }
                  (Definition.ofTemp ⟨st.nextId, v1⟩)]⟩ : Instruction)] dst.temp.id +
                countWrites Δ2 dst.temp.id :=
            countWrites_append [(⟨aco_opcode.v_lshlrev_b32, Format.VOP2,
              [Operand.ofConst (ctz imm), Operand.ofTemp t],
              [applyFlags { st with nextId := st.nextId + 1 }
                (Definition.ofTemp ⟨st.nextId, v1⟩)]⟩ : Instruction)] Δ2 dst.temp.id
          rw [hca, h1, hcount2]
        · intro env henvt henvc
          have henv1 : ∀ j, evalInstr env (⟨aco_opcode.v_lshlrev_b32, Format.VOP2,
              [Operand.ofConst (ctz imm), Operand.ofTemp t],
              [applyFlags { st with nextId := st.nextId + 1 }
                (Definition.ofTemp ⟨st.nextId, v1⟩)]⟩ : Instruction) j =
              if j = st.nextId then (v * 2 ^ ctz imm) % W else env j := by
            intro j
            rw [evalInstr_lshl, applyFlags_temp, Definition_ofTemp_temp, Temp_mk_id]
            rw [henvt, shl_mod_eq v (ctz imm) hk32]
          obtain ⟨hval, hpres⟩ := heval2
            (evalInstr env (⟨aco_opcode.v_lshlrev_b32, Format.VOP2,
              [Operand.ofConst (ctz imm), Operand.ofTemp t],
              [applyFlags { st with nextId := st.nextId + 1 }
                (Definition.ofTemp ⟨st.nextId, v1⟩)]⟩ : Instruction))
            (by rw [henv1 t.id, if_neg (by omega)]; exact henvt)
            (fun _ => by rw [Temp_mk_id, henv1 st.nextId, if_pos rfl])
          constructor
          · simp only [evalList]
            rw [hval, Temp_mk_id, if_neg (by omega : ¬ st.nextId = 0), if_pos hcur0]
            simp only [W] at *
            omega
          · intro j hj hjne
            simp only [evalList]
            rw [hpres j (show j < st.nextId + 1 by omega) hjne, henv1 j,
              if_neg (by omega)]
      · -- B1: shift into a second fresh temp, add with running result into a fresh temp
        obtain ⟨I, kk, heq, hkk, hops, hgetd, hwrites, hdefs, heval⟩ :=
          vadd32_loop_shape
            { st with nextId := st.nextId + 2,
                      emitted := st.emitted ++ [⟨aco_opcode.v_lshlrev_b32, Format.VOP2,
                        [Operand.ofConst (ctz imm), Operand.ofTemp t],
                        [applyFlags { st with nextId := st.nextId + 2 }
                          (Definition.ofTemp ⟨st.nextId + 1, v1⟩)]⟩] }
            (Definition.ofTemp ⟨st.nextId, v1⟩)
            (Operand.ofTemp (⟨st.nextId + 1, v1⟩ : Temp)) cur hcty
            (show (Definition.ofTemp (⟨st.nextId, v1⟩ : Temp)).temp.id ≠ st.nextId + 2
              by rw [Definition_ofTemp_temp, Temp_mk_id]; omega)
        have hstep : mulLoop dst t imm cur res st =
            mulLoop dst t (imm - 2 ^ ctz imm) ⟨st.nextId, v1⟩ (some I)
              { st with nextId := st.nextId + 2 + kk,
                        emitted := (st.emitted ++ [⟨aco_opcode.v_lshlrev_b32,
                          Format.VOP2,
                          [Operand.ofConst (ctz imm), Operand.ofTemp t],
                          [applyFlags { st with nextId := st.nextId + 2 }
                            (Definition.ofTemp ⟨st.nextId + 1, v1⟩)]⟩]) ++ [I] } := by
          rw [mulLoop, dif_neg himm0, u_bit_scan_eq imm (by omega) himmW]
          simp only [himm2, hk0, hcur0, ne_eq, not_true_eq_false, not_false_iff,
            and_self, if_false, if_true, BState.defOf, BState.allocTmp,
            BState.emitF, BState.insertInstr, Instruction.resultTemp,
            List.map_cons, List.map_nil, List.getD_cons_zero, applyFlags_temp,
            Definition_ofTemp_temp]
          rw [heq]
        obtain ⟨Δ2, pre2, last2, hem, hres, hsplit, hgetd2, hops2, hcount2, heval2⟩ :=
          ih (imm - 2 ^ ctz imm) (by omega) himm2 (by omega) (⟨st.nextId, v1⟩ : Temp)
            (some I)
            { st with nextId := st.nextId + 2 + kk,
                      emitted := (st.emitted ++ [⟨aco_opcode.v_lshlrev_b32,
                        Format.VOP2,
                        [Operand.ofConst (ctz imm), Operand.ofTemp t],
                        [applyFlags { st with nextId := st.nextId + 2 }
                          (Definition.ofTemp ⟨st.nextId + 1, v1⟩)]⟩]) ++ [I] }
            v ((v * 2 ^ ctz imm % W + c) % W) hv (by simp only [W]; omega) rfl
            (show t.id < st.nextId + 2 + kk by omega)
            (show dst.temp.id < st.nextId + 2 + kk by omega)
            (show st.nextId < st.nextId + 2 + kk by omega)
            (fun h0 => absurd (by rwa [Temp_mk_id] at h0) hnz2)
        rw [hstep]
        refine ⟨⟨aco_opcode.v_lshlrev_b32, Format.VOP2,
            [Operand.ofConst (ctz imm), Operand.ofTemp t],
            [applyFlags { st with nextId := st.nextId + 2 }
              (Definition.ofTemp ⟨st.nextId + 1, v1⟩)]⟩ :: I :: Δ2,
          ⟨aco_opcode.v_lshlrev_b32, Format.VOP2,
            [Operand.ofConst (ctz imm), Operand.ofTemp t],
            [applyFlags { st with nextId := st.nextId + 2 }
              (Definition.ofTemp ⟨st.nextId + 1, v1⟩)]⟩ :: I :: pre2,
          last2, ?_, hres, ?_, hgetd2, ?_, ?_, ?_⟩
        · rw [hem]
          simp
        · rw [hsplit]
          rfl
        · intro i hi
          simp only [List.mem_cons] at hi
          rcases hi with hi | hi | hi
          · rw [hi]
            exact Or.inl rfl
          · rw [hi]
            rcases hops with h | h
            · exact Or.inr (Or.inl h)
            · exact Or.inr (Or.inr h)
          · exact hops2 i hi
        · have h1 : countWrites [(⟨aco_opcode.v_lshlrev_b32, Format.VOP2,
              [Operand.ofConst (ctz imm), Operand.ofTemp t],
              [applyFlags { st with nextId := st.nextId + 2 }
                (Definition.ofTemp ⟨st.nextId + 1, v1⟩)]⟩ : Instruction)]
              dst.temp.id = 0 := by
            apply countWrites_single_of_not
            apply writesId_eq_false
            intro d hd
            simp only [List.mem_singleton] at hd
            rw [hd, applyFlags_temp, Definition_ofTemp_temp]
            intro hcontra
            have h3 : st.nextId + 1 = dst.temp.id := hcontra
            omega
          have h2 : countWrites [I] dst.temp.id = 0 := by
            apply countWrites_single_of_not
            apply writesId_eq_false
            intro d hd
            rcases hdefs d hd with h | h
            · have h3 : d.temp.id = st.nextId := h
              intro hcontra
              omega
            · have h3 : d.temp.id = st.nextId + 2 := h
              intro hcontra
              omega
          have hca : ∀ (x y : Instruction) (l : List Instruction) (id : Nat),
              countWrites (x :: y :: l) id =
                countWrites [x] id + (countWrites [y] id + countWrites l id) := by
            intro x y l id
            have e1 : x :: y :: l = [x] ++ (y :: l) := rfl
            have e2 : (y :: l : List Instruction) = [y] ++ l := rfl
            rw [e1, countWrites_append, e2, countWrites_append]
          rw [hca, h1, h2, hcount2]
        · intro env henvt henvc
          have hcval := henvc hcur0
          have henv1 : ∀ j, evalInstr env (⟨aco_opcode.v_lshlrev_b32, Format.VOP2,
              [Operand.ofConst (ctz imm), Operand.ofTemp t],
              [applyFlags { st with nextId := st.nextId + 2 }
                (Definition.ofTemp ⟨st.nextId + 1, v1⟩)]⟩ : Instruction) j =
              if j = st.nextId + 1 then (v * 2 ^ ctz imm) % W else env j := by
            intro j
            rw [evalInstr_lshl, applyFlags_temp, Definition_ofTemp_temp, Temp_mk_id]
            rw [henvt, shl_mod_eq v (ctz imm) hk32]
          have henv2 : ∀ j, j ≠ st.nextId + 2 → j ≠ st.nextId + 1 →
              evalInstr (evalInstr env (⟨aco_opcode.v_lshlrev_b32, Format.VOP2,
                [Operand.ofConst (ctz imm), Operand.ofTemp t],
                [applyFlags { st with nextId := st.nextId + 2 }
                  (Definition.ofTemp ⟨st.nextId + 1, v1⟩)]⟩ : Instruction)) I j =
              if j = st.nextId then (v * 2 ^ ctz imm % W + c) % W else env j := by
            intro j hj2 hj1
            have h := heval (evalInstr env (⟨aco_opcode.v_lshlrev_b32, Format.VOP2,
              [Operand.ofConst (ctz imm), Operand.ofTemp t],
              [applyFlags { st with nextId := st.nextId + 2 }
                (Definition.ofTemp ⟨st.nextId + 1, v1⟩)]⟩ : Instruction)) j
              (show j ≠ st.nextId + 2 from hj2)
            rw [oval_temp, henv1 (⟨st.nextId + 1, v1⟩ : Temp).id] at h
            rw [Temp_mk_id] at h
            rw [if_pos rfl] at h
            rw [henv1 cur.id, if_neg (show ¬ cur.id = st.nextId + 1 by omega)] at h
            rw [hcval] at h
            rw [h]
            rw [henv1 j, if_neg hj1]
            rfl
          obtain ⟨hval, hpres⟩ := heval2
            (evalInstr (evalInstr env (⟨aco_opcode.v_lshlrev_b32, Format.VOP2,
              [Operand.ofConst (ctz imm), Operand.ofTemp t],
              [applyFlags { st with nextId := st.nextId + 2 }
                (Definition.ofTemp ⟨st.nextId + 1, v1⟩)]⟩ : Instruction)) I)
            (by rw [henv2 t.id (by omega) (by omega), if_neg (by omega)]; exact henvt)
            (fun _ => by rw [Temp_mk_id, henv2 st.nextId (by omega) (by omega), if_pos rfl])
          constructor
          · simp only [evalList]
            rw [hval, Temp_mk_id, if_neg (by omega : ¬ st.nextId = 0), if_neg hcur0]
            simp only [W] at *
            omega
          · intro j hj hjne
            simp only [evalList]
            rw [hpres j (show j < st.nextId + 2 + kk by omega) hjne,
              henv2 j (by omega) (by omega), if_neg (by omega)]


theorem ffs_sub_one (n : Nat) (h : n ≠ 0) : ffs n - 1 = ctz n := by
  simp only [ffs, h, if_false]
  omega

/-- C1: for every 32-bit immediate and every 32-bit value bound to the
vector source, the sequence emitted by v_mul_imm (without the 24-bit
restriction) computes (v * imm) mod 2^32 into dst, and dst is written by
exactly one, final, instruction of that sequence. -/
theorem v_mul_imm_correct (prog : Program) (n0 : Nat) (dst : Definition)
    (t : Temp) (imm v : Nat) (env : Nat → Nat)
    (himm : imm < W) (hv : v < W)
    (ht : t.rc.type = RegType.vgpr) (ht0 : t.id ≠ 0)
    (htn : t.id < n0) (hdn : dst.temp.id < n0)
    (henv : env t.id = v) :
    evalList (v_mul_imm ⟨prog, n0, [], false, false⟩ dst t imm false).2.emitted
        env dst.temp.id = (v * imm) % W ∧
    countWrites (v_mul_imm ⟨prog, n0, [], false, false⟩ dst t imm false).2.emitted
        dst.temp.id = 1 ∧
    ∃ pre lastI,
      (v_mul_imm ⟨prog, n0, [], false, false⟩ dst t imm false).2.emitted =
        pre ++ [lastI] ∧
      (lastI.definitions.getD 0 default).temp.id = dst.temp.id := by
  by_cases h0 : imm = 0
  · have hout : v_mul_imm ⟨prog, n0, [], false, false⟩ dst t imm false =
        (some ⟨aco_opcode.p_parallelcopy, Format.PSEUDO, [Operand.ofConst 0],
          [applyFlags ⟨prog, n0, [], false, false⟩ dst]⟩,
         ⟨prog, n0, [⟨aco_opcode.p_parallelcopy, Format.PSEUDO, [Operand.ofConst 0],
          [applyFlags ⟨prog, n0, [], false, false⟩ dst]⟩], false, false⟩) := by
      rw [v_mul_imm]
      simp only [if_pos h0, copy, BState.emitF, BState.insertInstr,
        List.map_cons, List.map_nil, List.nil_append]
    rw [hout]
    refine ⟨?_, ?_, [], _, rfl, ?_⟩
    · simp only [evalList, evalInstr_copy, applyFlags_temp, oval_const,
        eq_self_iff_true, if_true]
      rw [h0]
      simp
    · rw [countWrites_single, if_pos]
      simp [writesId, applyFlags]
    · rfl
  · by_cases h1 : imm = 1
    · have hout : v_mul_imm ⟨prog, n0, [], false, false⟩ dst t imm false =
          (some ⟨aco_opcode.p_parallelcopy, Format.PSEUDO, [Operand.ofTemp t],
            [applyFlags ⟨prog, n0, [], false, false⟩ dst]⟩,
           ⟨prog, n0, [⟨aco_opcode.p_parallelcopy, Format.PSEUDO, [Operand.ofTemp t],
            [applyFlags ⟨prog, n0, [], false, false⟩ dst]⟩], false, false⟩) := by
        rw [v_mul_imm]
        simp only [if_neg h0, if_pos h1, copy, BState.emitF,
          BState.insertInstr, List.map_cons, List.map_nil, List.nil_append]
      rw [hout]
      refine ⟨?_, ?_, [], _, rfl, ?_⟩
      · simp only [evalList, evalInstr_copy, applyFlags_temp, oval_temp,
          eq_self_iff_true, if_true]
        rw [henv, h1, Nat.mul_one, Nat.mod_eq_of_lt hv]
      · rw [countWrites_single, if_pos]
        simp [writesId, applyFlags]
      · rfl
    · by_cases h2 : util_is_power_of_two_or_zero imm = true
      · -- power of two: single shift
        have himmpow : imm = 2 ^ ctz imm := pow2_structure imm (by omega) himm h2
        have hk32 : ctz imm < 32 := ctz_lt_32 imm (by omega) himm
        have hffs : ffs imm - 1 = ctz imm := ffs_sub_one imm h0
        have hout : v_mul_imm ⟨prog, n0, [], false, false⟩ dst t imm false =
            (some ⟨aco_opcode.v_lshlrev_b32, Format.VOP2,
              [Operand.ofConst (ffs imm - 1), Operand.ofTemp t],
              [applyFlags ⟨prog, n0, [], false, false⟩ dst]⟩,
             ⟨prog, n0, [⟨aco_opcode.v_lshlrev_b32, Format.VOP2,
              [Operand.ofConst (ffs imm - 1), Operand.ofTemp t],
              [applyFlags ⟨prog, n0, [], false, false⟩ dst]⟩], false, false⟩) := by
          rw [v_mul_imm]
          simp only [if_neg h0, if_neg h1, if_pos h2, BState.emitF,
            BState.insertInstr, List.map_cons, List.map_nil, List.nil_append]
        rw [hout]
        refine ⟨?_, ?_, [], _, rfl, ?_⟩
        · simp only [evalList, evalInstr_lshl, applyFlags_temp,
            eq_self_iff_true, if_true]
          rw [henv, hffs, shl_mod_eq v (ctz imm) hk32, ← himmpow]
        · rw [countWrites_single, if_pos]
          simp [writesId, applyFlags]
        · rfl
      · by_cases h4 : util_is_power_of_two_nonzero (imm - 1) = true
        · -- imm - 1 is a power of two: shift then add
          obtain ⟨hm1pos, hm1pow⟩ :=
            pow2_nonzero_structure (imm - 1) (by omega) h4
          have hk32 : ctz (imm - 1) < 32 := ctz_lt_32 (imm - 1) (by omega) (by omega)
          have hffs : ffs (imm - 1) - 1 = ctz (imm - 1) := ffs_sub_one _ (by omega)
          obtain ⟨I, kk, heq, hkk, hops, hgetd, hwrites, hdefs, heval⟩ :=
            vadd32_loop_shape
              ⟨prog, n0 + 1, [⟨aco_opcode.v_lshlrev_b32, Format.VOP2,
                [Operand.ofConst (ffs (imm - 1) - 1), Operand.ofTemp t],
                [applyFlags ⟨prog, n0 + 1, [], false, false⟩
                  (Definition.ofTemp ⟨n0, v1⟩)]⟩], false, false⟩
              dst (Operand.ofTemp (⟨n0, v1⟩ : Temp)) t ht
              (show dst.temp.id ≠ n0 + 1 by omega)
          have hout : v_mul_imm ⟨prog, n0, [], false, false⟩ dst t imm false =
              (some I,
               ⟨prog, n0 + 1 + kk, [⟨aco_opcode.v_lshlrev_b32, Format.VOP2,
                [Operand.ofConst (ffs (imm - 1) - 1), Operand.ofTemp t],
                [applyFlags ⟨prog, n0 + 1, [], false, false⟩
                  (Definition.ofTemp ⟨n0, v1⟩)]⟩] ++ [I], false, false⟩) := by
            rw [v_mul_imm]
            simp only [if_neg h0, if_neg h1, if_neg h2, if_pos h4,
              Bool.false_eq_true, if_false, BState.defOf, BState.allocTmp,
              BState.emitF, BState.insertInstr, Instruction.resultTemp,
              List.map_cons, List.map_nil, List.nil_append, List.getD_cons_zero,
              applyFlags_temp, Definition_ofTemp_temp]
            rw [heq]
          rw [hout]
          refine ⟨?_, ?_,
            [⟨aco_opcode.v_lshlrev_b32, Format.VOP2,
              [Operand.ofConst (ffs (imm - 1) - 1), Operand.ofTemp t],
              [applyFlags ⟨prog, n0 + 1, [], false, false⟩
                (Definition.ofTemp ⟨n0, v1⟩)]⟩], I, rfl, hgetd⟩
          · simp only [evalList]
            have henv1 : ∀ j, evalInstr env (⟨aco_opcode.v_lshlrev_b32, Format.VOP2,
                [Operand.ofConst (ffs (imm - 1) - 1), Operand.ofTemp t],
                [applyFlags ⟨prog, n0 + 1, [], false, false⟩
                  (Definition.ofTemp ⟨n0, v1⟩)]⟩ : Instruction) j =
                if j = n0 then (v * 2 ^ ctz (imm - 1)) % W else env j := by
              intro j
              rw [evalInstr_lshl, applyFlags_temp, Definition_ofTemp_temp]
              rw [henv, hffs, shl_mod_eq v (ctz (imm - 1)) hk32]
            rw [heval _ dst.temp.id (show dst.temp.id ≠ n0 + 1 by omega)]
            rw [if_pos rfl, oval_temp, henv1, if_pos rfl, henv1]
            rw [if_neg (by omega : ¬ t.id = n0), henv]
            have hsplit : v * imm = v * 2 ^ ctz (imm - 1) + v := by
              calc v * imm = v * ((imm - 1) + 1) := by
                    congr 1
                    omega
              _ = v * (imm - 1) + v := by ring
              _ = v * 2 ^ ctz (imm - 1) + v := by rw [← hm1pow]
            simp only [W] at *
            omega
          · have h1c : countWrites [(⟨aco_opcode.v_lshlrev_b32, Format.VOP2,
                [Operand.ofConst (ffs (imm - 1) - 1), Operand.ofTemp t],
                [applyFlags ⟨prog, n0 + 1, [], false, false⟩
                  (Definition.ofTemp ⟨n0, v1⟩)]⟩ : Instruction)] dst.temp.id = 0 := by
              apply countWrites_single_of_not
              apply writesId_eq_false
              intro d hd
              simp only [List.mem_singleton] at hd
              rw [hd, applyFlags_temp, Definition_ofTemp_temp]
              intro hcontra
              have h3 : n0 = dst.temp.id := hcontra
              omega
            have h2c : countWrites [I] dst.temp.id = 1 := by
              rw [countWrites_single, if_pos hwrites]
            rw [countWrites_append, h1c, h2c]
        · by_cases h5 : mul_cost prog imm > 2 ∧
              util_is_power_of_two_nonzero ((imm + 1) % W) = true
          · -- imm + 1 is a power of two and multiply is expensive: shift, subtract
            have hWpos : 0 < W := by norm_num [W]
            obtain ⟨hp1pos, hp1pow⟩ :=
              pow2_nonzero_structure ((imm + 1) % W) (Nat.mod_lt _ hWpos) h5.2
            have hne : imm + 1 ≠ W := by
              intro hcon
              rw [hcon, Nat.mod_self] at hp1pos
              omega
            have hmod : (imm + 1) % W = imm + 1 := Nat.mod_eq_of_lt (by omega)
            rw [hmod] at hp1pow
            have hk32 : ctz (imm + 1) < 32 := ctz_lt_32 (imm + 1) (by omega) (by omega)
            have hffs : ffs ((imm + 1) % W) - 1 = ctz (imm + 1) := by
              rw [hmod]
              exact ffs_sub_one _ (by omega)
            have hvsplit : v * (imm + 1) = v * imm + v := by ring
            rw [hp1pow] at hvsplit
            rcases Nat.lt_or_ge prog.chip_class GFX9 with h9 | h9
            · have hout : v_mul_imm ⟨prog, n0, [], false, false⟩ dst t imm false =
                  (some ⟨aco_opcode.v_sub_co_u32, Format.VOP2,
                    [Operand.ofTemp (⟨n0, v1⟩ : Temp), Operand.ofTemp t],
                    [dst, (Definition.ofTemp ⟨n0 + 1, s2⟩).setHintReg PhysReg.vcc]⟩,
                   ⟨prog, n0 + 2,
                    [⟨aco_opcode.v_lshlrev_b32, Format.VOP2,
                      [Operand.ofConst (ffs ((imm + 1) % W) - 1), Operand.ofTemp t],
                      [applyFlags ⟨prog, n0 + 1, [], false, false⟩
                        (Definition.ofTemp ⟨n0, v1⟩)]⟩] ++
                    [⟨aco_opcode.v_sub_co_u32, Format.VOP2,
                      [Operand.ofTemp (⟨n0, v1⟩ : Temp), Operand.ofTemp t],
                      [dst, (Definition.ofTemp ⟨n0 + 1, s2⟩).setHintReg
                        PhysReg.vcc]⟩], false, false⟩) := by
                rw [v_mul_imm]
                simp only [if_neg h0, if_neg h1, if_neg h2, if_neg h4, if_pos h5,
                  Bool.false_eq_true, if_false, BState.defOf, BState.allocTmp,
                  BState.emitF, BState.insertInstr, Instruction.resultTemp,
                  List.map_cons, List.map_nil, List.nil_append, List.getD_cons_zero,
                  applyFlags_temp, Definition_ofTemp_temp]
                rw [vsub32_lt9_simple ⟨prog, n0 + 1,
                  [⟨aco_opcode.v_lshlrev_b32, Format.VOP2,
                    [Operand.ofConst (ffs ((imm + 1) % W) - 1), Operand.ofTemp t],
                    [applyFlags ⟨prog, n0 + 1, [], false, false⟩
                      (Definition.ofTemp ⟨n0, v1⟩)]⟩], false, false⟩
                  dst (Operand.ofTemp (⟨n0, v1⟩ : Temp)) t ht h9]
              rw [hout]
              refine ⟨?_, ?_,
                [⟨aco_opcode.v_lshlrev_b32, Format.VOP2,
                  [Operand.ofConst (ffs ((imm + 1) % W) - 1), Operand.ofTemp t],
                  [applyFlags ⟨prog, n0 + 1, [], false, false⟩
                    (Definition.ofTemp ⟨n0, v1⟩)]⟩], _, rfl, rfl⟩
              · simp only [evalList]
                have henv1 : ∀ j, evalInstr env (⟨aco_opcode.v_lshlrev_b32,
                    Format.VOP2,
                    [Operand.ofConst (ffs ((imm + 1) % W) - 1), Operand.ofTemp t],
                    [applyFlags ⟨prog, n0 + 1, [], false, false⟩
                      (Definition.ofTemp ⟨n0, v1⟩)]⟩ : Instruction) j =
                    if j = n0 then (v * 2 ^ ctz (imm + 1)) % W else env j := by
                  intro j
                  rw [evalInstr_lshl, applyFlags_temp, Definition_ofTemp_temp]
                  rw [henv, hffs, shl_mod_eq v (ctz (imm + 1)) hk32]
                rw [evalInstr_subco]
                rw [Definition.setHintReg, Definition_ofTemp_temp]
                rw [if_neg (show ¬ dst.temp.id = (⟨n0 + 1, s2⟩ : Temp).id by
                  intro hcon
                  have h3 : dst.temp.id = n0 + 1 := hcon
                  omega)]
                rw [if_pos rfl, oval_temp, oval_temp, henv1, if_pos rfl, henv1]
                rw [if_neg (by omega : ¬ t.id = n0), henv]
                simp only [sub32, W] at *
                omega
              · have h1c : countWrites [(⟨aco_opcode.v_lshlrev_b32, Format.VOP2,
                    [Operand.ofConst (ffs ((imm + 1) % W) - 1), Operand.ofTemp t],
                    [applyFlags ⟨prog, n0 + 1, [], false, false⟩
                      (Definition.ofTemp ⟨n0, v1⟩)]⟩ : Instruction)]
                    dst.temp.id = 0 := by
                  apply countWrites_single_of_not
                  apply writesId_eq_false
                  intro d hd
                  simp only [List.mem_singleton] at hd
                  rw [hd, applyFlags_temp, Definition_ofTemp_temp]
                  intro hcontra
                  have h3 : n0 = dst.temp.id := hcontra
                  omega
                have h2c : countWrites [(⟨aco_opcode.v_sub_co_u32, Format.VOP2,
                    [Operand.ofTemp (⟨n0, v1⟩ : Temp), Operand.ofTemp t],
                    [dst, (Definition.ofTemp ⟨n0 + 1, s2⟩).setHintReg
                      PhysReg.vcc]⟩ : Instruction)] dst.temp.id = 1 := by
                  rw [countWrites_single, if_pos]
                  simp [writesId]
                rw [countWrites_append, h1c, h2c]
            · have hout : v_mul_imm ⟨prog, n0, [], false, false⟩ dst t imm false =
                  (some ⟨aco_opcode.v_sub_u32, Format.VOP2,
                    [Operand.ofTemp (⟨n0, v1⟩ : Temp), Operand.ofTemp t], [dst]⟩,
                   ⟨prog, n0 + 1,
                    [⟨aco_opcode.v_lshlrev_b32, Format.VOP2,
                      [Operand.ofConst (ffs ((imm + 1) % W) - 1), Operand.ofTemp t],
                      [applyFlags ⟨prog, n0 + 1, [], false, false⟩
                        (Definition.ofTemp ⟨n0, v1⟩)]⟩] ++
                    [⟨aco_opcode.v_sub_u32, Format.VOP2,
                      [Operand.ofTemp (⟨n0, v1⟩ : Temp), Operand.ofTemp t],
                      [dst]⟩], false, false⟩) := by
                rw [v_mul_imm]
                simp only [if_neg h0, if_neg h1, if_neg h2, if_neg h4, if_pos h5,
                  Bool.false_eq_true, if_false, BState.defOf, BState.allocTmp,
                  BState.emitF, BState.insertInstr, Instruction.resultTemp,
                  List.map_cons, List.map_nil, List.nil_append, List.getD_cons_zero,
                  applyFlags_temp, Definition_ofTemp_temp]
                rw [vsub32_ge9_simple ⟨prog, n0 + 1,
                  [⟨aco_opcode.v_lshlrev_b32, Format.VOP2,
                    [Operand.ofConst (ffs ((imm + 1) % W) - 1), Operand.ofTemp t],
                    [applyFlags ⟨prog, n0 + 1, [], false, false⟩
                      (Definition.ofTemp ⟨n0, v1⟩)]⟩], false, false⟩
                  dst (Operand.ofTemp (⟨n0, v1⟩ : Temp)) t ht
                  (show ¬ prog.chip_class < GFX9 by omega)]
              rw [hout]
              refine ⟨?_, ?_,
                [⟨aco_opcode.v_lshlrev_b32, Format.VOP2,
                  [Operand.ofConst (ffs ((imm + 1) % W) - 1), Operand.ofTemp t],
                  [applyFlags ⟨prog, n0 + 1, [], false, false⟩
                    (Definition.ofTemp ⟨n0, v1⟩)]⟩], _, rfl, rfl⟩
              · simp only [evalList]
                have henv1 : ∀ j, evalInstr env (⟨aco_opcode.v_lshlrev_b32,
                    Format.VOP2,
                    [Operand.ofConst (ffs ((imm + 1) % W) - 1), Operand.ofTemp t],
                    [applyFlags ⟨prog, n0 + 1, [], false, false⟩
                      (Definition.ofTemp ⟨n0, v1⟩)]⟩ : Instruction) j =
                    if j = n0 then (v * 2 ^ ctz (imm + 1)) % W else env j := by
                  intro j
                  rw [evalInstr_lshl, applyFlags_temp, Definition_ofTemp_temp]
                  rw [henv, hffs, shl_mod_eq v (ctz (imm + 1)) hk32]
                rw [evalInstr_subu]
                rw [if_pos rfl, oval_temp, oval_temp, henv1, if_pos rfl, henv1]
                rw [if_neg (by omega : ¬ t.id = n0), henv]
                simp only [sub32, W] at *
                omega
              · have h1c : countWrites [(⟨aco_opcode.v_lshlrev_b32, Format.VOP2,
                    [Operand.ofConst (ffs ((imm + 1) % W) - 1), Operand.ofTemp t],
                    [applyFlags ⟨prog, n0 + 1, [], false, false⟩
                      (Definition.ofTemp ⟨n0, v1⟩)]⟩ : Instruction)]
                    dst.temp.id = 0 := by
                  apply countWrites_single_of_not
                  apply writesId_eq_false
                  intro d hd
                  simp only [List.mem_singleton] at hd
                  rw [hd, applyFlags_temp, Definition_ofTemp_temp]
                  intro hcontra
                  have h3 : n0 = dst.temp.id := hcontra
                  omega
                have h2c : countWrites [(⟨aco_opcode.v_sub_u32, Format.VOP2,
                    [Operand.ofTemp (⟨n0, v1⟩ : Temp), Operand.ofTemp t],
                    [dst]⟩ : Instruction)] dst.temp.id = 1 := by
                  rw [countWrites_single, if_pos]
                  simp [writesId]
                rw [countWrites_append, h1c, h2c]
          · by_cases h6 : instrs_required_for prog imm < mul_cost prog imm
            · -- shift-and-add decomposition loop
              have hout : v_mul_imm ⟨prog, n0, [], false, false⟩ dst t imm false =
                  mulLoop dst t imm ⟨0, v1⟩ none ⟨prog, n0, [], false, false⟩ := by
                rw [v_mul_imm]
                simp only [if_neg h0, if_neg h1, if_neg h2, if_neg h4, if_neg h5,
                  if_pos h6, Bool.false_eq_true, if_false]
              obtain ⟨Δ, pre, lastI, hem, hres, hsplitΔ, hgetd, hopsΔ, hcount,
                  hevalΔ⟩ :=
                mulLoop_spec dst t ht ht0 imm h0 himm (⟨0, v1⟩ : Temp) none
                  ⟨prog, n0, [], false, false⟩ v 0 hv (by norm_num [W]) rfl htn hdn
                  (show (0 : Nat) < n0 by omega) (fun _ => h1)
              rw [hout]
              obtain ⟨hval, _⟩ := hevalΔ env henv
                (fun hh => absurd rfl hh)
              refine ⟨?_, ?_, pre, lastI, ?_, hgetd⟩
              · rw [hem, List.nil_append, hval]
                simp
              · rw [hem, List.nil_append, hcount]
              · rw [hem, List.nil_append, hsplitΔ]
            · -- materialize imm and emit one direct multiply
              have hout : v_mul_imm ⟨prog, n0, [], false, false⟩ dst t imm false =
                  (some ⟨aco_opcode.v_mul_lo_u32, Format.VOP3,
                    [Operand.ofTemp (⟨n0, s1⟩ : Temp), Operand.ofTemp t],
                    [applyFlags ⟨prog, n0 + 1, [], false, false⟩ dst]⟩,
                   ⟨prog, n0 + 1,
                    [⟨aco_opcode.p_parallelcopy, Format.PSEUDO,
                      [Operand.ofConst imm],
                      [applyFlags ⟨prog, n0 + 1, [], false, false⟩
                        (Definition.ofTemp ⟨n0, s1⟩)]⟩] ++
                    [⟨aco_opcode.v_mul_lo_u32, Format.VOP3,
                      [Operand.ofTemp (⟨n0, s1⟩ : Temp), Operand.ofTemp t],
                      [applyFlags ⟨prog, n0 + 1, [], false, false⟩ dst]⟩],
                    false, false⟩) := by
                rw [v_mul_imm]
                simp only [if_neg h0, if_neg h1, if_neg h2, if_neg h4, if_neg h5,
                  if_neg h6, Bool.false_eq_true, if_false, copy, BState.defOf,
                  BState.allocTmp, BState.emitF, BState.insertInstr,
                  List.map_cons, List.map_nil, List.nil_append,
                  applyFlags_temp, Definition_ofTemp_temp]
                rfl
              rw [hout]
              refine ⟨?_, ?_,
                [⟨aco_opcode.p_parallelcopy, Format.PSEUDO, [Operand.ofConst imm],
                  [applyFlags ⟨prog, n0 + 1, [], false, false⟩
                    (Definition.ofTemp ⟨n0, s1⟩)]⟩], _, rfl, ?_⟩
              · simp only [evalList]
                have henv1 : ∀ j, evalInstr env (⟨aco_opcode.p_parallelcopy,
                    Format.PSEUDO, [Operand.ofConst imm],
                    [applyFlags ⟨prog, n0 + 1, [], false, false⟩
                      (Definition.ofTemp ⟨n0, s1⟩)]⟩ : Instruction) j =
                    if j = n0 then imm else env j := by
                  intro j
                  rw [evalInstr_copy, applyFlags_temp, Definition_ofTemp_temp,
                    oval_const]
                rw [evalInstr_mullo, applyFlags_temp]
                rw [if_pos rfl, oval_temp, oval_temp, henv1, if_pos rfl, henv1]
                rw [if_neg (by omega : ¬ t.id = n0), henv, Nat.mul_comm]
              · have h1c : countWrites [(⟨aco_opcode.p_parallelcopy, Format.PSEUDO,
                    [Operand.ofConst imm],
                    [applyFlags ⟨prog, n0 + 1, [], false, false⟩
                      (Definition.ofTemp ⟨n0, s1⟩)]⟩ : Instruction)]
                    dst.temp.id = 0 := by
                  apply countWrites_single_of_not
                  apply writesId_eq_false
                  intro d hd
                  simp only [List.mem_singleton] at hd
                  rw [hd, applyFlags_temp, Definition_ofTemp_temp]
                  intro hcontra
                  have h3 : n0 = dst.temp.id := hcontra
                  omega
                have h2c : countWrites [(⟨aco_opcode.v_mul_lo_u32, Format.VOP3,
                    [Operand.ofTemp (⟨n0, s1⟩ : Temp), Operand.ofTemp t],
                    [applyFlags ⟨prog, n0 + 1, [], false, false⟩ dst]⟩ :
                      Instruction)] dst.temp.id = 1 := by
                  rw [countWrites_single, if_pos]
                  simp [writesId, applyFlags]
                rw [countWrites_append, h1c, h2c]
              · show (applyFlags ⟨prog, n0 + 1, [], false, false⟩ dst).temp.id =
                    dst.temp.id
                rw [applyFlags_temp]

theorem v_mul_imm_correct_witness :
    (5 : Nat) < W ∧ (7 : Nat) < W ∧
    (⟨1, v1⟩ : Temp).rc.type = RegType.vgpr ∧ (⟨1, v1⟩ : Temp).id ≠ 0 ∧
    (⟨1, v1⟩ : Temp).id < 3 ∧ (Definition.ofTemp ⟨2, v1⟩).temp.id < 3 ∧
    (fun i => if i = 1 then 7 else 0 : Nat → Nat) (⟨1, v1⟩ : Temp).id = 7 ∧
    (evalList (v_mul_imm ⟨⟨9, 64, s2⟩, 3, [], false, false⟩
        (Definition.ofTemp ⟨2, v1⟩) ⟨1, v1⟩ 5 false).2.emitted
        (fun i => if i = 1 then 7 else 0)
        (Definition.ofTemp ⟨2, v1⟩).temp.id = (7 * 5) % W ∧
      countWrites (v_mul_imm ⟨⟨9, 64, s2⟩, 3, [], false, false⟩
        (Definition.ofTemp ⟨2, v1⟩) ⟨1, v1⟩ 5 false).2.emitted
        (Definition.ofTemp ⟨2, v1⟩).temp.id = 1 ∧
      ∃ pre lastI,
        (v_mul_imm ⟨⟨9, 64, s2⟩, 3, [], false, false⟩
          (Definition.ofTemp ⟨2, v1⟩) ⟨1, v1⟩ 5 false).2.emitted =
          pre ++ [lastI] ∧
        (lastI.definitions.getD 0 default).temp.id =
          (Definition.ofTemp ⟨2, v1⟩).temp.id) :=
  ⟨by norm_num [W], by norm_num [W], rfl, by decide, by decide, by decide, rfl,
   v_mul_imm_correct ⟨9, 64, s2⟩ 3 (Definition.ofTemp ⟨2, v1⟩) ⟨1, v1⟩ 5 7
     (fun i => if i = 1 then 7 else 0) (by norm_num [W]) (by norm_num [W])
     rfl (by decide) (by decide) (by decide) rfl⟩

/-- The shape property of §4.6 for the small immediates 0, 1, 8, 9, 7:
exact instruction counts, shift amounts, and follow-up opcode families. -/
def smallImmShapes (prog : Program) (n0 : Nat) (dst : Definition) (t : Temp) :
    Prop :=
  (v_mul_imm ⟨prog, n0, [], false, false⟩ dst t 0 false).2.emitted.length = 1 ∧
  (v_mul_imm ⟨prog, n0, [], false, false⟩ dst t 1 false).2.emitted.length = 1 ∧
  (v_mul_imm ⟨prog, n0, [], false, false⟩ dst t 8 false).2.emitted =
    [⟨aco_opcode.v_lshlrev_b32, Format.VOP2,
      [Operand.ofConst 3, Operand.ofTemp t],
      [applyFlags ⟨prog, n0, [], false, false⟩ dst]⟩] ∧
  (∃ I2, (v_mul_imm ⟨prog, n0, [], false, false⟩ dst t 9 false).2.emitted =
    [⟨aco_opcode.v_lshlrev_b32, Format.VOP2,
      [Operand.ofConst 3, Operand.ofTemp t],
      [applyFlags ⟨prog, n0 + 1, [], false, false⟩
        (Definition.ofTemp ⟨n0, v1⟩)]⟩, I2] ∧
    (I2.opcode = aco_opcode.v_add_co_u32 ∨ I2.opcode = aco_opcode.v_add_u32)) ∧
  (mul_cost prog 7 > 2 →
    ∃ I2, (v_mul_imm ⟨prog, n0, [], false, false⟩ dst t 7 false).2.emitted =
      [⟨aco_opcode.v_lshlrev_b32, Format.VOP2,
        [Operand.ofConst 3, Operand.ofTemp t],
        [applyFlags ⟨prog, n0 + 1, [], false, false⟩
          (Definition.ofTemp ⟨n0, v1⟩)]⟩, I2] ∧
      (I2.opcode = aco_opcode.v_sub_co_u32 ∨ I2.opcode = aco_opcode.v_sub_u32))

/-- C2: v_mul_imm emits exactly 1 instruction for imm = 0 and imm = 1; exactly
one left shift by 3 for imm = 8; a shift by 3 followed by an add for imm = 9;
and, when the multiply cost estimate exceeds 2, a shift by 3 followed by a
subtract for imm = 7. -/
theorem v_mul_imm_small_imm_shapes (prog : Program) (n0 : Nat) (dst : Definition)
    (t : Temp) (ht : t.rc.type = RegType.vgpr) :
    smallImmShapes prog n0 dst t := by
  refine ⟨rfl, rfl, rfl, ?_, ?_⟩
  · have hred9 : (v_mul_imm ⟨prog, n0, [], false, false⟩ dst t 9 false).2 =
        (vadd32 ⟨prog, n0 + 1, [⟨aco_opcode.v_lshlrev_b32, Format.VOP2,
            [Operand.ofConst 3, Operand.ofTemp t],
            [applyFlags ⟨prog, n0 + 1, [], false, false⟩
              (Definition.ofTemp ⟨n0, v1⟩)]⟩], false, false⟩
          dst (Operand.ofTemp (⟨n0, v1⟩ : Temp)) (Operand.ofTemp t) false
          (Operand.undefRC s2) false).2 := rfl
    rcases Nat.lt_or_ge prog.chip_class GFX9 with h9 | h9
    · refine ⟨?_, ?_, ?_⟩
      · exact (vadd32 ⟨prog, n0 + 1, [⟨aco_opcode.v_lshlrev_b32, Format.VOP2,
          [Operand.ofConst 3, Operand.ofTemp t],
          [applyFlags ⟨prog, n0 + 1, [], false, false⟩
            (Definition.ofTemp ⟨n0, v1⟩)]⟩], false, false⟩
          dst (Operand.ofTemp (⟨n0, v1⟩ : Temp)) (Operand.ofTemp t) false
          (Operand.undefRC s2) false).1
      · rw [hred9]
        rw [vadd32_lt9 ⟨prog, n0 + 1, [⟨aco_opcode.v_lshlrev_b32, Format.VOP2,
            [Operand.ofConst 3, Operand.ofTemp t],
            [applyFlags ⟨prog, n0 + 1, [], false, false⟩
              (Definition.ofTemp ⟨n0, v1⟩)]⟩], false, false⟩
          dst (Operand.ofTemp (⟨n0, v1⟩ : Temp)) t ht h9]
        rfl
      · rw [vadd32_lt9 ⟨prog, n0 + 1, [⟨aco_opcode.v_lshlrev_b32, Format.VOP2,
            [Operand.ofConst 3, Operand.ofTemp t],
            [applyFlags ⟨prog, n0 + 1, [], false, false⟩
              (Definition.ofTemp ⟨n0, v1⟩)]⟩], false, false⟩
          dst (Operand.ofTemp (⟨n0, v1⟩ : Temp)) t ht h9]
        exact Or.inl rfl
    · refine ⟨?_, ?_, ?_⟩
      · exact (vadd32 ⟨prog, n0 + 1, [⟨aco_opcode.v_lshlrev_b32, Format.VOP2,
          [Operand.ofConst 3, Operand.ofTemp t],
          [applyFlags ⟨prog, n0 + 1, [], false, false⟩
            (Definition.ofTemp ⟨n0, v1⟩)]⟩], false, false⟩
          dst (Operand.ofTemp (⟨n0, v1⟩ : Temp)) (Operand.ofTemp t) false
          (Operand.undefRC s2) false).1
      · rw [hred9]
        rw [vadd32_ge9 ⟨prog, n0 + 1, [⟨aco_opcode.v_lshlrev_b32, Format.VOP2,
            [Operand.ofConst 3, Operand.ofTemp t],
            [applyFlags ⟨prog, n0 + 1, [], false, false⟩
              (Definition.ofTemp ⟨n0, v1⟩)]⟩], false, false⟩
          dst (Operand.ofTemp (⟨n0, v1⟩ : Temp)) t ht
          (show ¬ prog.chip_class < GFX9 by omega)]
        rfl
      · rw [vadd32_ge9 ⟨prog, n0 + 1, [⟨aco_opcode.v_lshlrev_b32, Format.VOP2,
            [Operand.ofConst 3, Operand.ofTemp t],
            [applyFlags ⟨prog, n0 + 1, [], false, false⟩
              (Definition.ofTemp ⟨n0, v1⟩)]⟩], false, false⟩
          dst (Operand.ofTemp (⟨n0, v1⟩ : Temp)) t ht
          (show ¬ prog.chip_class < GFX9 by omega)]
        exact Or.inr rfl
  · intro hmc
    have hc : mul_cost prog 7 > 2 ∧
        util_is_power_of_two_nonzero ((7 + 1) % W) = true := ⟨hmc, by decide⟩
    have hred7 : (v_mul_imm ⟨prog, n0, [], false, false⟩ dst t 7 false).2 =
        (vsub32 ⟨prog, n0 + 1, [⟨aco_opcode.v_lshlrev_b32, Format.VOP2,
            [Operand.ofConst (ffs ((7 + 1) % W) - 1), Operand.ofTemp t],
            [applyFlags ⟨prog, n0 + 1, [], false, false⟩
              (Definition.ofTemp ⟨n0, v1⟩)]⟩], false, false⟩
          dst (Operand.ofTemp (⟨n0, v1⟩ : Temp)) (Operand.ofTemp t) false
          (Operand.undefRC s2)).2 := by
      rw [v_mul_imm]
      simp only [if_neg (show ¬ (7 : Nat) = 0 by decide),
        if_neg (show ¬ (7 : Nat) = 1 by decide),
        if_neg (show ¬ util_is_power_of_two_or_zero 7 = true by decide),
        if_neg (show ¬ util_is_power_of_two_nonzero (7 - 1) = true by decide),
        if_pos hc, Bool.false_eq_true, if_false,
        BState.defOf, BState.allocTmp, BState.emitF, BState.insertInstr,
        Instruction.resultTemp, List.map_cons, List.map_nil, List.nil_append,
        List.getD_cons_zero, applyFlags_temp, Definition_ofTemp_temp]
    rcases Nat.lt_or_ge prog.chip_class GFX9 with h9 | h9
    · refine ⟨⟨aco_opcode.v_sub_co_u32, Format.VOP2,
        [Operand.ofTemp (⟨n0, v1⟩ : Temp), Operand.ofTemp t],
        [dst, (Definition.ofTemp ⟨n0 + 2 - 1, s2⟩).setHintReg PhysReg.vcc]⟩,
        ?_, Or.inl rfl⟩
      rw [hred7]
      rw [vsub32_lt9_simple ⟨prog, n0 + 1, [⟨aco_opcode.v_lshlrev_b32,
          Format.VOP2,
          [Operand.ofConst (ffs ((7 + 1) % W) - 1), Operand.ofTemp t],
          [applyFlags ⟨prog, n0 + 1, [], false, false⟩
            (Definition.ofTemp ⟨n0, v1⟩)]⟩], false, false⟩
        dst (Operand.ofTemp (⟨n0, v1⟩ : Temp)) t ht h9]
      rfl
    · refine ⟨⟨aco_opcode.v_sub_u32, Format.VOP2,
        [Operand.ofTemp (⟨n0, v1⟩ : Temp), Operand.ofTemp t], [dst]⟩,
        ?_, Or.inr rfl⟩
      rw [hred7]
      rw [vsub32_ge9_simple ⟨prog, n0 + 1, [⟨aco_opcode.v_lshlrev_b32,
          Format.VOP2,
          [Operand.ofConst (ffs ((7 + 1) % W) - 1), Operand.ofTemp t],
          [applyFlags ⟨prog, n0 + 1, [], false, false⟩
            (Definition.ofTemp ⟨n0, v1⟩)]⟩], false, false⟩
        dst (Operand.ofTemp (⟨n0, v1⟩ : Temp)) t ht
        (show ¬ prog.chip_class < GFX9 by omega)]
      rfl

theorem v_mul_imm_small_imm_shapes_witness :
    (⟨1, v1⟩ : Temp).rc.type = RegType.vgpr ∧
    smallImmShapes ⟨8, 64, s2⟩ 3 (Definition.ofTemp ⟨2, v1⟩) ⟨1, v1⟩ :=
  ⟨rfl, v_mul_imm_small_imm_shapes ⟨8, 64, s2⟩ 3 (Definition.ofTemp ⟨2, v1⟩)
    ⟨1, v1⟩ rfl⟩

/-- The cost-choice property of §4.6: outside the special cases, the
shift-and-add decomposition is chosen exactly when its instruction count
beats the multiply cost; otherwise the immediate is materialized into a
scalar register and one v_mul_lo_u32 is emitted. -/
def costChoice (prog : Program) (n0 : Nat) (dst : Definition) (t : Temp)
    (imm : Nat) : Prop :=
  mul_cost prog imm =
    (if prog.chip_class ≥ GFX10 then 1
     else 4 + (if isLiteralImm imm then 1 else 0)) ∧
  instrs_required_for prog imm =
    (if prog.chip_class ≥ GFX9 then util_bitcount imm
     else (util_bitcount imm - (imm &&& 1)) + (util_bitcount imm - 1)) ∧
  (instrs_required_for prog imm < mul_cost prog imm →
    v_mul_imm ⟨prog, n0, [], false, false⟩ dst t imm false =
      mulLoop dst t imm ⟨0, v1⟩ none ⟨prog, n0, [], false, false⟩ ∧
    ∀ I ∈ (v_mul_imm ⟨prog, n0, [], false, false⟩ dst t imm false).2.emitted,
      (I.opcode = aco_opcode.v_lshlrev_b32 ∨
       I.opcode = aco_opcode.v_add_co_u32 ∨
       I.opcode = aco_opcode.v_add_u32) ∧
      I.opcode ≠ aco_opcode.v_mul_lo_u32) ∧
  (¬ instrs_required_for prog imm < mul_cost prog imm →
    v_mul_imm ⟨prog, n0, [], false, false⟩ dst t imm false =
      (some ⟨aco_opcode.v_mul_lo_u32, Format.VOP3,
        [Operand.ofTemp (⟨n0, s1⟩ : Temp), Operand.ofTemp t],
        [applyFlags ⟨prog, n0 + 1, [], false, false⟩ dst]⟩,
       ⟨prog, n0 + 1,
        [⟨aco_opcode.p_parallelcopy, Format.PSEUDO, [Operand.ofConst imm],
          [applyFlags ⟨prog, n0 + 1, [], false, false⟩
            (Definition.ofTemp ⟨n0, s1⟩)]⟩,
         ⟨aco_opcode.v_mul_lo_u32, Format.VOP3,
          [Operand.ofTemp (⟨n0, s1⟩ : Temp), Operand.ofTemp t],
          [applyFlags ⟨prog, n0 + 1, [], false, false⟩ dst]⟩],
        false, false⟩))

/-- C3: when no special case applies, v_mul_imm decomposes into shifts and
adds exactly when the decomposition cost (set-bit count, or shift/add split
without a fused shift-and-add) is below the multiply cost (1 on GFX10+, else
4 plus 1 for a literal-slot immediate); otherwise it emits a scalar copy of
imm and one direct v_mul_lo_u32. -/
theorem v_mul_imm_cost_choice (prog : Program) (n0 : Nat) (dst : Definition)
    (t : Temp) (imm : Nat)
    (himm : imm < W) (ht : t.rc.type = RegType.vgpr) (ht0 : t.id ≠ 0)
    (htn : t.id < n0) (hdn : dst.temp.id < n0)
    (h0 : ¬ imm = 0) (h1 : ¬ imm = 1)
    (h2 : util_is_power_of_two_or_zero imm = false)
    (h4 : util_is_power_of_two_nonzero (imm - 1) = false)
    (h5 : util_is_power_of_two_nonzero ((imm + 1) % W) = false) :
    costChoice prog n0 dst t imm := by
  have h2n : ¬ util_is_power_of_two_or_zero imm = true := by simp [h2]
  have h4n : ¬ util_is_power_of_two_nonzero (imm - 1) = true := by simp [h4]
  have h5n : ¬ (mul_cost prog imm > 2 ∧
      util_is_power_of_two_nonzero ((imm + 1) % W) = true) := by simp [h5]
  refine ⟨rfl, rfl, ?_, ?_⟩
  · intro h6
    have hout : v_mul_imm ⟨prog, n0, [], false, false⟩ dst t imm false =
        mulLoop dst t imm ⟨0, v1⟩ none ⟨prog, n0, [], false, false⟩ := by
      rw [v_mul_imm]
      simp only [if_neg h0, if_neg h1, if_neg h2n, if_neg h4n, if_neg h5n,
        if_pos h6, Bool.false_eq_true, if_false]
    obtain ⟨Δ, pre, lastI, hem, hres, hsplitΔ, hgetd, hops, hcount, heval⟩ :=
      mulLoop_spec dst t ht ht0 imm h0 himm (⟨0, v1⟩ : Temp) none
        ⟨prog, n0, [], false, false⟩ 0 0 (by norm_num [W]) (by norm_num [W])
        rfl htn hdn (show (0 : Nat) < n0 by omega) (fun _ => h1)
    refine ⟨hout, ?_⟩
    intro I hI
    rw [hout, hem, List.nil_append] at hI
    rcases hops I hI with ho | ho | ho
    · exact ⟨Or.inl ho, by rw [ho]; decide⟩
    · exact ⟨Or.inr (Or.inl ho), by rw [ho]; decide⟩
    · exact ⟨Or.inr (Or.inr ho), by rw [ho]; decide⟩
  · intro h6
    rw [v_mul_imm]
    simp only [if_neg h0, if_neg h1, if_neg h2n, if_neg h4n, if_neg h5n,
      if_neg h6, Bool.false_eq_true, if_false, copy, BState.defOf,
      BState.allocTmp, BState.emitF, BState.insertInstr,
      List.map_cons, List.map_nil, List.nil_append,
      applyFlags_temp, Definition_ofTemp_temp]
    rfl

theorem v_mul_imm_cost_choice_witness :
    (11 : Nat) < W ∧ (⟨1, v1⟩ : Temp).rc.type = RegType.vgpr ∧
    (⟨1, v1⟩ : Temp).id ≠ 0 ∧ (⟨1, v1⟩ : Temp).id < 3 ∧
    (Definition.ofTemp ⟨2, v1⟩).temp.id < 3 ∧
    ¬ (11 : Nat) = 0 ∧ ¬ (11 : Nat) = 1 ∧
    util_is_power_of_two_or_zero 11 = false ∧
    util_is_power_of_two_nonzero (11 - 1) = false ∧
    util_is_power_of_two_nonzero ((11 + 1) % W) = false ∧
    costChoice ⟨8, 64, s2⟩ 3 (Definition.ofTemp ⟨2, v1⟩) ⟨1, v1⟩ 11 :=
  ⟨by decide, rfl, by decide, by decide, by decide, by decide, by decide,
   by decide, by decide, by decide,
   v_mul_imm_cost_choice ⟨8, 64, s2⟩ 3 (Definition.ofTemp ⟨2, v1⟩) ⟨1, v1⟩ 11
     (by decide) rfl (by decide) (by decide) (by decide) (by decide) (by decide)
     (by decide) (by decide) (by decide)⟩

end Aco
